import Mathlib

/-!
Verification development for the quantitative core of `quantforge`
(`src/backend/quant_engine.py`, class `SakuraEngine`).

The Python source is embedded shallowly:

* a pandas `Series` of floats becomes `List (Option ℚ)` (`none` models the
  floating NaN sentinel used for "not yet computed"; rounding of IEEE floats
  is not modelled, all arithmetic is exact rational arithmetic);
* a boolean signal `Series` becomes `List Bool` (pandas comparisons against
  NaN yield `False`, which `none`-propagation reproduces);
* bar data (`open/high/low/close/volume` columns indexed by date) becomes
  `List Bar` with integer dates;
* the strategy-parameter dict (`Dict[str, Any]` parsed from JSON) becomes an
  association list of `PVal`, where `PVal.other` stands for any value on
  which Python `int()` / `float()` / arithmetic raises (strings, null, ...);
* Python exceptions become `Except String`;
* calls into the external `vectorbt` library (`vbt.MA.run`,
  `vbt.Portfolio.from_signals`, metric accessors, ...) are modelled
  definitionally; every such model carries a doc comment naming the call it
  stands for and the assumptions made about the library.
-/

namespace QuantForge

/-! ### Python float results

`PyFloat` models the value domain of the float-valued metric fields: a
finite value (exact rational), NaN, or a signed infinity. -/

/-- Result domain of Python float computations: finite, NaN or ±∞. -/
inductive PyFloat where
  | num (q : ℚ)
  | nan
  | inf
  | ninf
deriving DecidableEq, Repr

/-- Whether a Python float value is finite. -/
def PyFloat.isNum : PyFloat → Bool
  | .num _ => true
  | _ => false

/-- Python float division `a / b` (IEEE: `0/0 = nan`, `a/0 = ±inf`). -/
def pyDivQ (a b : ℚ) : PyFloat :=
  if b = 0 then (if a = 0 then .nan else if 0 < a then .inf else .ninf)
  else .num (a / b)

/-- Subtraction of a finite constant from a Python float. -/
def pySubC : PyFloat → ℚ → PyFloat
  | .num a, c => .num (a - c)
  | .nan, _ => .nan
  | .inf, _ => .inf
  | .ninf, _ => .ninf

/-- Multiplication of a Python float by a finite constant. -/
def pyMulC : PyFloat → ℚ → PyFloat
  | .num a, c => .num (a * c)
  | .nan, _ => .nan
  | .inf, c => if 0 < c then .inf else if c < 0 then .ninf else .nan
  | .ninf, c => if 0 < c then .ninf else if c < 0 then .inf else .nan

/-- Guard `if np.isnan(x): x = 0.0` used at quant_engine.py:213 and :215. -/
def pyNanToZero (x : PyFloat) : PyFloat :=
  if x = .nan then .num 0 else x

/-! ### Series

`Ser` is a pandas float `Series` aligned positionally with the bar list. -/

abbrev Ser := List (Option ℚ)

/-- Lift a fully defined column into a series. -/
def toSer (l : List ℚ) : Ser := l.map some

/-- Constant series (e.g. the scalar threshold a series is compared with). -/
def constSer (n : Nat) (q : ℚ) : Ser := List.replicate n (some q)

/-- Pointwise binary operation; NaN propagates. -/
def serZip (f : ℚ → ℚ → ℚ) : Ser → Ser → Ser :=
  List.zipWith (fun a b =>
    match a, b with
    | some x, some y => some (f x y)
    | _, _ => none)

/-- Pointwise `+`. -/
def serAdd : Ser → Ser → Ser := serZip (· + ·)

/-- Pointwise `-`. -/
def serSub : Ser → Ser → Ser := serZip (· - ·)

/-- Pointwise division; a zero divisor yields NaN/∞ in floats, which (like
NaN) compares as `False` everywhere it is used, so it is modelled as `none`. -/
def serDiv : Ser → Ser → Ser :=
  List.zipWith (fun a b =>
    match a, b with
    | some x, some y => if y = 0 then none else some (x / y)
    | _, _ => none)

/-- Multiply a series by a scalar. -/
def serMulC (s : Ser) (c : ℚ) : Ser := s.map (Option.map (· * c))

/-- Pointwise absolute value. -/
def serAbs (s : Ser) : Ser := s.map (Option.map (fun x => |x|))

/-- Pointwise maximum ignoring NaN (pandas `concat(...).max(axis=1)` skips
NaN entries). -/
def serMaxSkip : Ser → Ser → Ser :=
  List.zipWith (fun a b =>
    match a, b with
    | some x, some y => some (max x y)
    | some x, none => some x
    | none, some y => some y
    | none, none => none)

/-- Pandas `shift(n)`: `n` leading NaN, values move forward, length kept. -/
def serShift (n : Nat) (s : Ser) : Ser :=
  (List.replicate n none ++ s).take s.length

/-- Pandas `diff(n) = s - s.shift(n)`. -/
def serDiff (n : Nat) (s : Ser) : Ser := serSub s (serShift n s)

/-- Comparison `a < b` elementwise; comparisons involving NaN are `False`. -/
def serLt : Ser → Ser → List Bool :=
  List.zipWith (fun a b =>
    match a, b with
    | some x, some y => decide (x < y)
    | _, _ => false)

/-- Comparison `c < s` elementwise against a scalar. -/
def serGtC (s : Ser) (c : ℚ) : List Bool :=
  s.map (fun a => match a with | some x => decide (c < x) | none => false)

/-- Comparison `s < c` elementwise against a scalar. -/
def serLtC (s : Ser) (c : ℚ) : List Bool :=
  s.map (fun a => match a with | some x => decide (x < c) | none => false)

/-- Comparison `s ≤ c` elementwise against a scalar. -/
def serLeC (s : Ser) (c : ℚ) : List Bool :=
  s.map (fun a => match a with | some x => decide (x ≤ c) | none => false)

/-- Comparison `c ≤ s` elementwise against a scalar. -/
def serGeC (s : Ser) (c : ℚ) : List Bool :=
  s.map (fun a => match a with | some x => decide (c ≤ x) | none => false)

/-- Mean of a list of rationals. -/
def meanQ (l : List ℚ) : ℚ := l.sum / l.length

/-- Sample variance (`ddof = 1`). -/
def varQ (l : List ℚ) : ℚ :=
  ((l.map (fun x => (x - meanQ l) ^ 2)).sum) / ((l.length : ℚ) - 1)

/-- Rolling-window operation with `min_periods = window` (pandas default):
positions with fewer than `w` preceding values, or with a NaN inside the
window, yield NaN. -/
def rollingOp (w : Nat) (f : List ℚ → Option ℚ) (s : Ser) : Ser :=
  (List.range s.length).map (fun i =>
    if i + 1 < w then none
    else
      let win := (s.drop (i + 1 - w)).take w
      if win.all (fun o => o.isSome) then f (win.filterMap id) else none)

/-- Rolling arithmetic mean. -/
def rollingMean (w : Nat) (s : Ser) : Ser :=
  rollingOp w (fun l => some (meanQ l)) s

/-- Rolling maximum. -/
def rollingMax (w : Nat) (s : Ser) : Ser := rollingOp w (fun l => l.max?) s

/-- Rolling minimum. -/
def rollingMin (w : Nat) (s : Ser) : Ser := rollingOp w (fun l => l.min?) s

/-- Rolling sample variance; the standard deviation itself is irrational in
general, so the bands built from it are handled through the exact
square-comparison helpers `ltSqrt` / `sqrtLt` below. A single-element window
has zero degrees of freedom and yields NaN. -/
def rollingVar (w : Nat) (s : Ser) : Ser :=
  rollingOp w (fun l => if l.length ≤ 1 then none else some (varQ l)) s

/-- Decides `t < α · √v` (for `0 ≤ v`) using only rational arithmetic. -/
def ltSqrt (t α v : ℚ) : Bool :=
  if 0 ≤ α then decide (t < 0) || decide (t ^ 2 < α ^ 2 * v)
  else decide (t < 0) && decide (α ^ 2 * v < t ^ 2)

/-- Decides `α · √v < t` (for `0 ≤ v`) using only rational arithmetic. -/
def sqrtLt (α v t : ℚ) : Bool :=
  if 0 ≤ α then decide (0 < t) && decide (α ^ 2 * v < t ^ 2)
  else (decide (0 < t) || (decide (t = 0) && decide (0 < v))) ||
       (decide (t < 0) && decide (t ^ 2 < α ^ 2 * v))

/-- Exponentially weighted mean with `adjust = False` and smoothing `α`
over a fully defined column (models `vbt.MA.run(..., ewm=True)` and the
MACD EMAs; the library seeds with the first observation). -/
def ewmMeanQ (α : ℚ) : List ℚ → List ℚ
  | [] => []
  | x :: r => x :: go x r
where
  go (prev : ℚ) : List ℚ → List ℚ
    | [] => []
    | x :: r =>
      let y := (1 - α) * prev + α * x
      y :: go y r

/-- Pandas `.ewm(alpha=α).mean()` with the pandas defaults
(`adjust=True`, `ignore_na=False`) over a series with NaN holes: weighted
numerator/denominator decay by `(1-α)` each step, a NaN contributes nothing
and repeats the previous mean, and positions before the first valid value
are NaN. -/
def ewmSer (α : ℚ) (s : Ser) : Ser :=
  go 0 0 s
where
  go (num den : ℚ) : Ser → Ser
    | [] => []
    | none :: r =>
      let n2 := (1 - α) * num
      let d2 := (1 - α) * den
      (if d2 = 0 then none else some (n2 / d2)) :: go n2 d2 r
    | some x :: r =>
      let n2 := (1 - α) * num + x
      let d2 := (1 - α) * den + 1
      (if d2 = 0 then none else some (n2 / d2)) :: go n2 d2 r

/-- Models `vbt.generic` `crossed_above`: true exactly at the bar where the
first series moves from (defined and) not-above to strictly above the
second; any NaN involved yields `False`. -/
def crossedAbove (a b : Ser) : List Bool :=
  (List.range a.length).map (fun i =>
    match i with
    | 0 => false
    | Nat.succ j =>
      match a.getD i none, b.getD i none, a.getD j none, b.getD j none with
      | some ai, some bi, some aj, some bj =>
        decide (bi < ai) && decide (aj ≤ bj)
      | _, _, _, _ => false)

/-- `crossed_below a b` is `crossed_above b a`. -/
def crossedBelow (a b : Ser) : List Bool := crossedAbove b a

/-! ### Strategy parameters -/

/-- A JSON parameter value: a number, or anything on which Python numeric
coercion (`int()`, `float()`, `/`) raises (non-numeric strings, null,
lists, ...) — the raised message is carried for the error path. -/
inductive PVal where
  | num (q : ℚ)
  | other (e : String)
deriving DecidableEq, Repr

abbrev Params := List (String × PVal)

/-- Python `int()` truncates toward zero. -/
def ratTrunc (q : ℚ) : ℤ := Int.tdiv q.num (q.den : ℤ)

/-- Models `int(params.get(key, default))`: the default is used when the key
is absent; a present non-numeric value makes `int()` raise. -/
def getIntD (ps : Params) (k : String) (d : ℤ) : Except String ℤ :=
  match ps.lookup k with
  | none => .ok d
  | some (.num q) => .ok (ratTrunc q)
  | some (.other e) => .error e

/-- Models `float(params.get(key, default))`. -/
def getQD (ps : Params) (k : String) (d : ℚ) : Except String ℚ :=
  match ps.lookup k with
  | none => .ok d
  | some (.num q) => .ok q
  | some (.other e) => .error e

/-- Models `params.get(key, 0) / 100.0` (quant_engine.py:177-179); a
non-numeric value makes the division raise, and this happens outside the
`try` block, so it propagates to the caller. -/
def getRisk (ps : Params) (k : String) : Except String ℚ :=
  match ps.lookup k with
  | none => .ok 0
  | some (.num q) => .ok (q / 100)
  | some (.other e) => .error e

/-- Models the window validation done by pandas/vectorbt rolling and
indicator constructors, which reject a non-positive window with a
`ValueError` (caught by the engine's `try`). -/
def checkWindow (i : ℤ) : Except String Unit :=
  if i ≤ 0 then .error ("window must be positive") else .ok ()

/-! ### Bars and indicator runs -/

/-- One OHLCV bar; the date index is an integer (day number). -/
structure Bar where
  date : ℤ
  openPrice : ℚ
  high : ℚ
  low : ℚ
  close : ℚ
  volume : ℚ
deriving DecidableEq, Repr

/-- Models `vbt.MA.run(close, window, ewm)`: rolling mean, or exponential
mean with span `window` (smoothing `2/(window+1)`) when `ewm` is set. -/
def maRun (close : List ℚ) (w : Nat) (ewm : Bool) : Ser :=
  if ewm then toSer (ewmMeanQ (2 / ((w : ℚ) + 1)) close)
  else rollingMean w (toSer close)

/-- Models `vbt.RSI.run(close, window)`: Wilder-style RSI — gains and
losses from one-bar differences, smoothed exponentially with `1/window`,
`RSI = 100·gain/(gain+loss)`; a zero denominator (flat stretch) is NaN. -/
def rsiSer (close : List ℚ) (w : Nat) : Ser :=
  let d := serDiff 1 (toSer close)
  let gains := ewmSer (1 / (w : ℚ)) (d.map (Option.map (fun x => max x 0)))
  let losses := ewmSer (1 / (w : ℚ)) (d.map (Option.map (fun x => max (-x) 0)))
  List.zipWith (fun g l =>
    match g, l with
    | some g, some l => if g + l = 0 then none else some (100 * g / (g + l))
    | _, _ => none) gains losses

/-- True range series (`max` of high-low, |high-prevClose|, |low-prevClose|,
skipping NaN as pandas `concat(...).max(axis=1)` does) —
quant_engine.py:28-31. -/
def trSer (high low close : List ℚ) : Ser :=
  let highS := toSer high
  let lowS := toSer low
  let prevC := serShift 1 (toSer close)
  serMaxSkip (serSub highS lowS)
    (serMaxSkip (serAbs (serSub highS prevC)) (serAbs (serSub lowS prevC)))

/-- Models `vbt.ATR.run(high, low, close, window).atr`: rolling mean of the
true range. -/
def atrRun (high low close : List ℚ) (w : Nat) : Ser :=
  rollingMean w (trSer high low close)

/-- `SakuraEngine._calculate_adx` (quant_engine.py:21-40), verbatim:
directional movements clipped at zero, ATR as a rolling mean of true range,
DI lines from `ewm(alpha=1/period)` means, `DX = |+DI-−DI|/|+DI+−DI|·100`,
ADX a rolling mean of DX. Divisions by zero yield non-triggering NaN. -/
def calculateAdx (high low close : List ℚ) (period : Nat) : Ser :=
  let plusDm := (serDiff 1 (toSer high)).map
    (Option.map (fun x => if x < 0 then 0 else x))
  let minusDm := (serDiff 1 (toSer low)).map
    (Option.map (fun x => if 0 < x then 0 else x))
  let atr := rollingMean period (trSer high low close)
  let plusDi := serMulC (serDiv (ewmSer (1 / (period : ℚ)) plusDm) atr) 100
  let minusDi :=
    serMulC (serDiv (ewmSer (1 / (period : ℚ)) (serAbs minusDm)) atr) 100
  let dx := serMulC
    (serDiv (serAbs (serSub plusDi minusDi)) (serAbs (serAdd plusDi minusDi)))
    100
  rollingMean period dx

/-! ### Strategy signal generation (quant_engine.py:49-171) -/

/-- Raw signals plus the indicator map of one strategy branch. -/
structure SigRes where
  entries : List Bool
  exits : List Bool
  indicators : List (String × Ser)
deriving Repr

/-- The all-false signal triple the engine initializes with
(quant_engine.py:45-47). -/
def flatSig (n : Nat) : SigRes :=
  ⟨List.replicate n false, List.replicate n false, []⟩

/-- Bollinger entry test `close < lower = mid − α·std` at one position,
decided exactly through `ltSqrt` on the rolling variance (the standard
deviation itself is irrational). NaN anywhere yields `False`. -/
def bbLtLower (c : Option ℚ) (m v : Option ℚ) (α : ℚ) : Bool :=
  match c, m, v with
  | some c, some m, some v => ltSqrt (c - m) (-α) v
  | _, _, _ => false

/-- Bollinger exit test `close > upper = mid + α·std` at one position. -/
def bbGtUpper (c : Option ℚ) (m v : Option ℚ) (α : ℚ) : Bool :=
  match c, m, v with
  | some c, some m, some v => sqrtLt α v (c - m)
  | _, _, _ => false

/-- The strategy dispatch of `run_strategy` (quant_engine.py:49-167): the
`try` body mapping a strategy identifier and parameters to raw entries,
raw exits and the indicator map. An `.error` models a raised exception;
in the source no statement after a branch's final assignment to `exits`
can raise, so at every raise point `entries`, `exits` and `indicators`
still hold their initializers — the atomic error result is faithful.
The Bollinger indicator map stores the middle line in place of the
(irrational) bands; no claim concerns indicator values, only the map's
emptiness. -/
def strategySignals (stype : String) (ps : Params) (bars : List Bar) :
    Except String SigRes :=
  let close := bars.map (·.close)
  let high := bars.map (·.high)
  let low := bars.map (·.low)
  let closeS := toSer close
  let n := bars.length
  if stype = "SMA_CROSSOVER" then do
    let sw ← getIntD ps ("shortWindow") 20
    let lw ← getIntD ps ("longWindow") 50
    checkWindow sw
    checkWindow lw
    let fast := maRun close sw.toNat false
    let slow := maRun close lw.toNat false
    .ok ⟨crossedAbove fast slow, crossedBelow fast slow,
         [("smaShort", fast), ("smaLong", slow)]⟩
  else if stype = "EMA_CROSSOVER" then do
    let sw ← getIntD ps ("shortWindow") 20
    let lw ← getIntD ps ("longWindow") 50
    checkWindow sw
    checkWindow lw
    let fast := maRun close sw.toNat true
    let slow := maRun close lw.toNat true
    .ok ⟨crossedAbove fast slow, crossedBelow fast slow,
         [("emaShort", fast), ("emaLong", slow)]⟩
  else if stype = "RSI_REVERSAL" then do
    let period ← getIntD ps ("rsiPeriod") 14
    checkWindow period
    let rsi := rsiSer close period.toNat
    let oversold ← getIntD ps ("rsiOversold") 30
    let overbought ← getIntD ps ("rsiOverbought") 70
    .ok ⟨crossedBelow rsi (constSer n (oversold : ℚ)),
         crossedAbove rsi (constSer n (overbought : ℚ)),
         [("rsi", rsi)]⟩
  else if stype = "BOLLINGER_BANDS" then do
    let w ← getIntD ps ("bbPeriod") 20
    let α ← getQD ps ("bbStdDev") 2
    checkWindow w
    let mid := rollingMean w.toNat closeS
    let v := rollingVar w.toNat closeS
    let ent := (List.range n).map (fun i =>
      bbLtLower (closeS.getD i none) (mid.getD i none) (v.getD i none) α)
    let ex := (List.range n).map (fun i =>
      bbGtUpper (closeS.getD i none) (mid.getD i none) (v.getD i none) α)
    .ok ⟨ent, ex, [("upperBand", mid), ("lowerBand", mid)]⟩
  else if stype = "MACD" then do
    let f ← getIntD ps ("macdFast") 12
    let s ← getIntD ps ("macdSlow") 26
    let sg ← getIntD ps ("macdSignal") 9
    checkWindow f
    checkWindow s
    checkWindow sg
    let fast := ewmMeanQ (2 / ((f.toNat : ℚ) + 1)) close
    let slow := ewmMeanQ (2 / ((s.toNat : ℚ) + 1)) close
    let macdLine := List.zipWith (· - ·) fast slow
    let signalLine := ewmMeanQ (2 / ((sg.toNat : ℚ) + 1)) macdLine
    let hist := List.zipWith (· - ·) macdLine signalLine
    .ok ⟨crossedAbove (toSer macdLine) (toSer signalLine),
         crossedBelow (toSer macdLine) (toSer signalLine),
         [("macd", toSer macdLine), ("macdSignal", toSer signalLine),
          ("macdHist", toSer hist)]⟩
  else if stype = "MOMENTUM" then do
    let p ← getIntD ps ("rocPeriod") 12
    let roc := serMulC (serDiv (serDiff p.toNat closeS)
      (serShift p.toNat closeS)) 100
    .ok ⟨List.zipWith (· && ·) (serGtC roc 0) (serLeC (serShift 1 roc) 0),
         List.zipWith (· && ·) (serLtC roc 0) (serGeC (serShift 1 roc) 0),
         [("roc", roc)]⟩
  else if stype = "TREND_RSI" then do
    let tm ← getIntD ps ("trendMa") 200
    checkWindow tm
    let ma := maRun close tm.toNat false
    let period ← getIntD ps ("rsiPeriod") 14
    checkWindow period
    let rsi := rsiSer close period.toNat
    let oversold ← getIntD ps ("rsiOversold") 30
    .ok ⟨List.zipWith (· && ·) (serLt ma closeS)
           (crossedBelow rsi (constSer n (oversold : ℚ))),
         List.zipWith (· || ·) (crossedAbove rsi (constSer n 70))
           (serLt closeS ma),
         [("smaLong", ma), ("rsi", rsi)]⟩
  else if stype = "VOLATILITY_FILTER" then do
    let ap ← getIntD ps ("adxPeriod") 14
    let θ ← getIntD ps ("adxThreshold") 25
    checkWindow ap
    let fast := maRun close 10 false
    let slow := maRun close 50 false
    let baseE := crossedAbove fast slow
    let baseX := crossedBelow fast slow
    let adx := calculateAdx high low close ap.toNat
    let trending := serGtC adx (θ : ℚ)
    .ok ⟨List.zipWith (· && ·) baseE trending, baseX,
         [("smaShort", fast), ("smaLong", slow)]⟩
  else if stype = "TURTLE" then do
    let ew ← getIntD ps ("turtleEntry") 20
    let xw ← getIntD ps ("turtleExit") 10
    checkWindow ew
    checkWindow xw
    let highN := serShift 1 (rollingMax ew.toNat (toSer high))
    let lowN := serShift 1 (rollingMin xw.toNat (toSer low))
    .ok ⟨serLt highN closeS, serLt closeS lowN,
         [("upperBand", highN), ("lowerBand", lowN)]⟩
  else if stype = "KELTNER" then do
    let ep ← getIntD ps ("keltnerPeriod") 20
    let m ← getQD ps ("keltnerMult") 2
    checkWindow ep
    let middle := maRun close ep.toNat true
    let atr := atrRun high low close 10
    let upper := serAdd middle (serMulC atr m)
    let lower := serSub middle (serMulC atr m)
    .ok ⟨serLt upper closeS, serLt closeS middle,
         [("upperBand", upper), ("lowerBand", lower), ("emaShort", middle)]⟩
  else
    .ok (flatSig n)

/-! ### Lookahead correction (quant_engine.py:174-175) -/

/-- Models `series.vbt.signals.fshift(1).fillna(False)`: every signal moves
forward by exactly one bar, the undefined value introduced at the first
position becomes `False`, and the length is preserved. -/
def fshift (l : List Bool) : List Bool :=
  (false :: l).take l.length

/-- Positional read of a boolean signal series; out of range is `False`
(signals are aligned 1:1 with the bars, so the simulator never reads out of
range). -/
def sigAt (l : List Bool) (i : Nat) : Bool := l.getD i false

/-! ### Execution simulator

Models `vbt.Portfolio.from_signals(**run_params)` (quant_engine.py:186-199)
for the engine's fixed configuration: one column, long-only,
`price=open`, `size=1.0`, `size_type='percent'` (each buy spends the given
fraction of free cash, fees and slippage included), `accumulate=True`
(an entry while a position is open adds to it — but a zero-cash buy is a
zero-size order, which the library ignores and does not record),
`sl_stop`/`tp_stop`/`sl_trail` risk overlays. Only `close` and the `open`
execution price are handed to the library, so stop conditions are checked
against the bar close; a triggered stop fills at the stop level. An entry
and exit signal on the same bar cancel (the library's default conflict
resolution). Signal orders fill at the open adjusted by slippage against
the trader; stop exits are checked after the open-price signals of the
bar. -/

/-- Order side. -/
inductive Side where
  | buy
  | sell
deriving DecidableEq, Repr

/-- One filled order record (`pf.orders`). -/
structure Order where
  idx : Nat
  date : ℤ
  side : Side
  price : ℚ
deriving DecidableEq, Repr

/-- Open-position state: share count, average fill price, cash spent
(cost basis, fees included) and highest close since entry. -/
structure Pos where
  shares : ℚ
  entryPrice : ℚ
  costBasis : ℚ
  peak : ℚ
deriving DecidableEq, Repr

/-- Risk/cost configuration assembled at quant_engine.py:177-198. -/
structure SimCfg where
  fees : ℚ
  slippage : ℚ
  initCash : ℚ
  size : ℚ
  accumulate : Bool
  slStop : Option ℚ
  tpStop : Option ℚ
  slTrail : Bool
deriving Repr

/-- Running simulation state. -/
structure SimSt where
  cash : ℚ
  pos : Option Pos
  orders : List Order
  pnls : List ℚ
  equity : List ℚ
deriving Repr

/-- Close the open position `p` at fill price `price` (slippage already
applied): proceeds flow to cash net of the fee on notional, the realized
trade P&L is recorded, and a SELL order is appended. -/
def doSell (cfg : SimCfg) (i : Nat) (d : ℤ) (price : ℚ) (p : Pos)
    (st : SimSt) : SimSt :=
  let proceeds := p.shares * price
  let net := proceeds - proceeds * cfg.fees
  { st with
    cash := st.cash + net
    pos := none
    orders := st.orders ++ [⟨i, d, .sell, price⟩]
    pnls := st.pnls ++ [net - p.costBasis] }

/-- Attempt a percent-sized buy: spend `size · cash` (fees on notional come
out of the same allocation) at the slippage-adjusted open. A non-positive
spend or price is a zero-size order, which the library ignores without
recording. An accumulated buy merges into the open position at the
share-weighted average entry price. -/
def tryBuy (cfg : SimCfg) (i : Nat) (b : Bar) (st : SimSt) : SimSt :=
  let spend := cfg.size * st.cash
  let priceAdj := b.openPrice * (1 + cfg.slippage)
  if 0 < spend ∧ 0 < priceAdj ∧ 0 < 1 + cfg.fees then
    let shares := spend / (priceAdj * (1 + cfg.fees))
    let newPos :=
      match st.pos with
      | none => (⟨shares, priceAdj, spend, b.close⟩ : Pos)
      | some p =>
        ⟨p.shares + shares,
         (p.shares * p.entryPrice + shares * priceAdj) / (p.shares + shares),
         p.costBasis + spend, max p.peak b.close⟩
    { st with
      cash := st.cash - spend
      pos := some newPos
      orders := st.orders ++ [⟨i, b.date, .buy, priceAdj⟩] }
  else st

/-- Risk-overlay check at the bar close for the position `p` (after the
peak-tracking update): the stop-loss reference is the highest close since
entry when trailing is active, the entry fill otherwise; stop-loss is
checked before take-profit; a triggered stop fills at its level adjusted
by slippage. -/
def applyStops (cfg : SimCfg) (i : Nat) (b : Bar) (p : Pos) (st : SimSt) :
    SimSt :=
  let peak2 := max p.peak b.close
  let ref := if cfg.slTrail then peak2 else p.entryPrice
  match cfg.slStop with
  | some sl =>
    if b.close ≤ ref * (1 - sl) then
      doSell cfg i b.date (ref * (1 - sl) * (1 - cfg.slippage)) p st
    else
      match cfg.tpStop with
      | some tp =>
        if p.entryPrice * (1 + tp) ≤ b.close then
          doSell cfg i b.date (p.entryPrice * (1 + tp) * (1 - cfg.slippage))
            p st
        else { st with pos := some { p with peak := peak2 } }
      | none => { st with pos := some { p with peak := peak2 } }
  | none =>
    match cfg.tpStop with
    | some tp =>
      if p.entryPrice * (1 + tp) ≤ b.close then
        doSell cfg i b.date (p.entryPrice * (1 + tp) * (1 - cfg.slippage))
          p st
      else { st with pos := some { p with peak := peak2 } }
    | none => { st with pos := some { p with peak := peak2 } }

/-- Exit-signal phase: a (shifted) exit signal closes the open position at
the slippage-adjusted open price; without a position it does nothing. -/
def sigSellStep (cfg : SimCfg) (x : Bool) (i : Nat) (b : Bar) (st : SimSt) :
    SimSt :=
  if x then
    match st.pos with
    | some p => doSell cfg i b.date (b.openPrice * (1 - cfg.slippage)) p st
    | none => st
  else st

/-- Entry-signal phase: a (shifted) entry signal buys at the open when no
position is open or accumulation is enabled. -/
def sigBuyStep (cfg : SimCfg) (e : Bool) (i : Nat) (b : Bar) (st : SimSt) :
    SimSt :=
  if e && (st.pos.isNone || cfg.accumulate) then tryBuy cfg i b st
  else st

/-- Risk-overlay phase: check the stops at the close while a position is
open. -/
def stopStep (cfg : SimCfg) (i : Nat) (b : Bar) (st : SimSt) : SimSt :=
  match st.pos with
  | some p => applyStops cfg i b p st
  | none => st

/-- Append the bar's mark-to-market equity (`cash`, plus the position
valued at the close). -/
def markEquity (b : Bar) (st : SimSt) : SimSt :=
  { st with
    equity := st.equity ++
      [st.cash + (match st.pos with
        | some p => p.shares * b.close
        | none => 0)] }

/-- One simulated bar: conflicting signals cancel; a (shifted) exit signal
closes the position at the open; a (shifted) entry signal buys at the open
(accumulation permitting); the risk overlays are then checked at the close;
finally the bar's mark-to-market equity is appended. -/
def stepBar (cfg : SimCfg) (ent ext : Bool) (i : Nat) (b : Bar)
    (st : SimSt) : SimSt :=
  markEquity b
    (stopStep cfg i b
      (sigBuyStep cfg (ent && !ext) i b
        (sigSellStep cfg (ext && !ent) i b st)))

/-- Run the simulator over the bars with the (already shifted) signal
series. -/
def simulate (cfg : SimCfg) (ents exts : List Bool) (bars : List Bar) :
    SimSt :=
  go 0 ⟨cfg.initCash, none, [], [], []⟩ bars
where
  go (i : Nat) (st : SimSt) : List Bar → SimSt
    | [] => st
    | b :: rest => go (i + 1) (stepBar cfg (sigAt ents i) (sigAt exts i) i b st) rest

/-! ### Metrics (quant_engine.py:211-232) -/

/-- Per-bar simple returns of the equity curve (`pf.returns()`): the first
return is taken against the initial cash, later ones against the previous
bar's value. -/
def returnsOf (capital : ℚ) (equity : List ℚ) : List PyFloat :=
  List.zipWith (fun v prev => pySubC (pyDivQ v prev) 1)
    equity (capital :: equity)

/-- Models `pf.sharpe_ratio()`: mean over sample standard deviation of the
per-bar returns, annualized. Fewer than two returns, or a zero-mean
zero-variance series, is NaN; zero variance with nonzero mean is ±∞. The
annualized finite value `√252·mean/std` is irrational, so the finite case
carries the rational proxy `mean/variance`, which has the same
zero/NaN/∞/sign classification — no claim depends on the finite
magnitude. -/
def sharpeClass (rets : List PyFloat) : PyFloat :=
  if rets.length ≤ 1 then .nan
  else if rets.all (·.isNum) then
    let l := rets.filterMap (fun x =>
      match x with | .num q => some q | _ => none)
    let m := meanQ l
    let v := varQ l
    if v = 0 then (if m = 0 then .nan else if 0 < m then .inf else .ninf)
    else .num (m / v)
  else .nan

/-- Models `pf.trades.win_rate()`: winning trades over all trades (the
still-open position counts as a trade marked to the last close); no trades
at all is NaN. -/
def winRateOf (pnls : List ℚ) : PyFloat :=
  if pnls.isEmpty then .nan
  else .num ((pnls.countP (fun x => decide (0 < x)) : ℚ) / pnls.length)

/-- Drawdown ratios `value/peak − 1` of an equity curve under its running
peak (the running peak starts at the first value for any non-negative
curve). -/
def ddRatios (peak : ℚ) : List ℚ → List ℚ
  | [] => []
  | v :: r => (v / max peak v - 1) :: ddRatios (max peak v) r

/-- Models `pf.max_drawdown()`: the minimum (most negative) of the
drawdown ratios — vectorbt, like empyrical, reports drawdown as a
non-positive fraction. Empty history is NaN. -/
def vbtMaxDrawdown (equity : List ℚ) : PyFloat :=
  match equity with
  | [] => .nan
  | _ => .num ((ddRatios 0 equity).foldl min 0)

/-- Peak-relative losses `(peak − value)/peak` of an equity curve. -/
def specDDList (peak : ℚ) : List ℚ → List ℚ
  | [] => []
  | v :: r => ((max peak v - v) / max peak v) :: specDDList (max peak v) r

/-- Stated from the spec's words, for comparison with the code's metric
(`maxDrawdownPct` = max over time of (peak-to-date equity − current equity)
/ peak-to-date equity × 100). -/
def specMaxDrawdownPct (equity : List ℚ) : ℚ :=
  ((specDDList 0 equity).foldl max 0) * 100

/-- The metrics record (quant_engine.py:224-232). -/
structure Metrics where
  totalReturn : PyFloat
  finalCapital : PyFloat
  initialCapital : PyFloat
  maxDrawdown : PyFloat
  winRate : PyFloat
  tradeCount : Nat
  sharpeRatio : PyFloat
deriving DecidableEq, Repr

/-- One trade-ledger row (quant_engine.py:250-255). -/
structure TradeRow where
  date : ℤ
  type : String
  price : ℚ
  reason : String
deriving DecidableEq, Repr

/-- Order side rendered as the ledger's type string
(quant_engine.py:249). -/
def sideStr : Side → String
  | .buy => "BUY"
  | .sell => "SELL"

/-- Ledger row built from an order record (quant_engine.py:250-255). -/
def tradeRowOf (o : Order) : TradeRow :=
  ⟨o.date, sideStr o.side, o.price, "Signal / Risk Trigger"⟩

/-- Models `pf.loc[metrics_start:metrics_end]` (quant_engine.py:206).
vectorbt 0.x wrapped objects such as `Portfolio` reject row selection —
`ArrayWrapper` indexing raises `IndexingError` when the time axis would
change — so the attempted time slice always raises, and the
`except`-handler at quant_engine.py:207-209 falls back to the full
portfolio. -/
def portfolioLoc (_w : ℤ × ℤ) : Except String (List ℚ) :=
  .error ("IndexingError: changing the time axis is not supported")

/-- Everything `run_strategy` returns (quant_engine.py:261-267), together
with the underlying portfolio state (`orders` = `pf.orders`, `equity` =
`pf.value()`) that the metric and ledger fields are derived from. -/
structure RunResult where
  metrics : Metrics
  trades : List TradeRow
  indicators : List (String × Ser)
  entries : List Bool
  exits : List Bool
  orders : List Order
  equity : List ℚ
deriving Repr

/-- Risk-overlay configuration (quant_engine.py:177-198): each of
`stopLoss`/`takeProfit`/`trailingStop` is read with default `0` and divided
by `100`; only a strictly positive result activates the overlay; an active
trailing stop overrides the static stop-loss and sets the trailing flag.
The remaining fields are the constants of `run_params`
(quant_engine.py:186-191). -/
def riskCfg (ps : Params) (capital fees slippage : ℚ) :
    Except String SimCfg :=
  match getRisk ps ("stopLoss"), getRisk ps ("takeProfit"),
      getRisk ps ("trailingStop") with
  | .error e, _, _ => .error e
  | .ok _, .error e, _ => .error e
  | .ok _, .ok _, .error e => .error e
  | .ok slRisk, .ok tpRisk, .ok tsRisk =>
    let sl := if 0 < slRisk then some slRisk else none
    let tp := if 0 < tpRisk then some tpRisk else none
    let ts := if 0 < tsRisk then some tsRisk else none
    .ok { fees := fees, slippage := slippage, initCash := capital, size := 1,
          accumulate := true, tpStop := tp,
          slStop := match ts with | some t => some t | none => sl,
          slTrail := ts.isSome }

/-- The strategy `try`/`except` outcome (quant_engine.py:49-171): on an
internal error the all-false initializers survive (the handler resets only
`entries`, but in the source no statement after a branch's final `exits`
assignment can raise, so `exits` and `indicators` still hold their
initializers at every reachable raise point). -/
def sigOf (stype : String) (ps : Params) (bars : List Bar) : SigRes :=
  match strategySignals stype ps bars with
  | .ok s => s
  | .error _ => flatSig bars.length

/-- The successful body of `run_strategy` once the risk configuration has
been read: signal generation (degrading to all-false on an internal
error), the one-bar shift, the `from_signals` simulation, and the metric
and ledger construction. -/
def runCore (stype : String) (ps : Params) (capital : ℚ) (cfg : SimCfg)
    (mwindow : Option (ℤ × ℤ)) (bars : List Bar) : RunResult :=
  let sig := sigOf stype ps bars
  let realEntries := fshift sig.entries
  let realExits := fshift sig.exits
  let sim := simulate cfg realEntries realExits bars
  let usedEquity :=
    match mwindow with
    | some w => match portfolioLoc w with
      | .ok e => e
      | .error _ => sim.equity
    | none => sim.equity
  let usedPnls := sim.pnls ++
    (match sim.pos, bars.getLast? with
     | some p, some b => [p.shares * b.close - p.costBasis]
     | _, _ => [])
  let sharpe := pyNanToZero (sharpeClass (returnsOf capital usedEquity))
  let winRate := pyNanToZero (winRateOf usedPnls)
  let startValue := usedEquity.head?.getD capital
  let metrics : Metrics :=
    { totalReturn :=
        match usedEquity.getLast? with
        | some v => pyMulC (pySubC (pyDivQ v capital) 1) 100
        | none => .nan
      finalCapital :=
        match usedEquity.getLast? with
        | some v => .num v
        | none => .nan
      initialCapital := .num startValue
      maxDrawdown := pyMulC (vbtMaxDrawdown usedEquity) 100
      winRate := pyMulC winRate 100
      tradeCount := sim.orders.length
      sharpeRatio := sharpe }
  let trades := sim.orders.filterMap (fun o =>
    match mwindow with
    | some w =>
      if o.date < w.1 ∨ w.2 < o.date then none else some (tradeRowOf o)
    | none => some (tradeRowOf o))
  ⟨metrics, trades, sig.indicators, sig.entries, sig.exits,
   sim.orders, sim.equity⟩

/-- `SakuraEngine.run_strategy` (quant_engine.py:42-267). Risk parameters
are read outside the `try`, so a non-numeric risk value propagates as an
error; everything else degrades and the run completes. The metrics-window
slice falls back to the full portfolio (`portfolioLoc`); the ledger is
built from the full order log filtered to the window. The final ledger
sort by date string is the identity here because orders are already
recorded in bar order. -/
def run_strategy (stype : String) (ps : Params) (capital fees slippage : ℚ)
    (mwindow : Option (ℤ × ℤ)) (bars : List Bar) :
    Except String RunResult :=
  match riskCfg ps capital fees slippage with
  | .error e => .error e
  | .ok cfg => .ok (runCore stype ps capital cfg mwindow bars)

/-- The three risk-parameter reads of `run_strategy` succeed (the values
are numeric or absent); when one of them is a value Python cannot divide,
`run_strategy` itself raises. -/
def riskOk (ps : Params) : Prop :=
  (getRisk ps ("stopLoss")).isOk ∧ (getRisk ps ("takeProfit")).isOk ∧
    (getRisk ps ("trailingStop")).isOk

/-! ### Engine construction (quant_engine.py:7-19) -/

/-- One raw input row: the date index value plus the cell values in column
order. -/
structure RawRow where
  date : ℤ
  vals : List ℚ
deriving DecidableEq, Repr

/-- The raw DataFrame handed to `SakuraEngine(data)`: column names plus
rows (the `date` column already parsed into the index, as lines 9-11 do). -/
structure RawFrame where
  colNames : List String
  rows : List RawRow
deriving Repr

/-- Column lookup `data[name]`: a missing column raises `KeyError`. -/
def colIdx (f : RawFrame) (k : String) : Except String Nat :=
  match f.colNames.findIdx? (· = k) with
  | some i => .ok i
  | none => .error k

/-- `SakuraEngine.__init__` (quant_engine.py:7-19): the rows are sorted
ascending by date (`sort_index`, line 13 — silently, whatever their input
order), then the five required columns are read in source order
(close, open, high, low, volume); the first missing one raises `KeyError`.
An empty frame with the required columns present is accepted. -/
def engineInit (f : RawFrame) : Except String (List Bar) := do
  let sorted := List.insertionSort (fun a b => a.date ≤ b.date) f.rows
  let ci ← colIdx f ("close")
  let oi ← colIdx f ("open")
  let hi ← colIdx f ("high")
  let li ← colIdx f ("low")
  let vi ← colIdx f ("volume")
  .ok (sorted.map (fun r =>
    ⟨r.date, r.vals.getD oi 0, r.vals.getD hi 0, r.vals.getD li 0,
     r.vals.getD ci 0, r.vals.getD vi 0⟩))

/-! ### Invariants used to specify the simulator -/

/-- Order-alternation invariant: while a position is open all cash is
deployed (100% percent sizing) and the last order is the opening BUY;
while flat the log is empty or ends with a SELL; the recorded sides
alternate and start with a BUY. -/
def altInv (st : SimSt) : Prop :=
  (∀ p, st.pos = some p → st.cash = 0 ∧
    ∃ o, st.orders.getLast? = some o ∧ o.side = Side.buy) ∧
  (st.pos = none →
    st.orders = [] ∨ ∃ o, st.orders.getLast? = some o ∧ o.side = Side.sell) ∧
  List.Chain' (fun a b => a ≠ b) (st.orders.map (·.side)) ∧
  (∀ o, st.orders.head? = some o → o.side = Side.buy)

/-- State healthiness: positive free cash while flat; while in a position,
zero free cash and a positive holding bought at a positive fill. -/
def goodState (st : SimSt) : Prop :=
  (st.pos = none → 0 < st.cash) ∧
  (∀ p, st.pos = some p → st.cash = 0 ∧ 0 < p.shares ∧ 0 < p.entryPrice)

/-- The numeric side conditions of the engine's configuration under the
documented input contract: full percent sizing, fee and slippage rates
that are non-negative proper fractions, and a take-profit distance that is
positive when active (as `riskCfg` guarantees). -/
def goodCfg (cfg : SimCfg) : Prop :=
  cfg.size = 1 ∧ 0 ≤ cfg.fees ∧ cfg.fees < 1 ∧ 0 ≤ cfg.slippage ∧
    cfg.slippage < 1 ∧ (∀ t, cfg.tpStop = some t → 0 < t)

/-- Positive bar prices (the documented input contract). -/
def goodBar (b : Bar) : Prop := 0 < b.openPrice ∧ 0 < b.close

/-! ### Concrete scenario data

Small bar series used to instantiate the theorems (witnesses and
counterexamples). `mkBar d p` is a bar on day `d` whose four prices all
equal `p`. -/

/-- Flat-priced bar for concrete scenarios. -/
def mkBar (d : ℤ) (p : ℚ) : Bar := ⟨d, p, p, p, p, 0⟩

/-- Four bars rising then crashing: 10, 20, 10, 5. -/
def barsA : List Bar := [mkBar 0 10, mkBar 1 20, mkBar 2 10, mkBar 3 5]

/-- Six bars: 10, 20, 15, 25, 25, 25 — produce BUY, SELL, BUY under the
one-bar Turtle channel. -/
def barsB : List Bar :=
  [mkBar 0 10, mkBar 1 20, mkBar 2 15, mkBar 3 25, mkBar 4 25, mkBar 5 25]

/-- One-bar Turtle channel parameters. -/
def psT : Params := [("turtleEntry", .num 1), ("turtleExit", .num 1)]

/-- Placeholder result used only to destructure `Except` values of
concrete runs. -/
def emptyRun : RunResult :=
  ⟨⟨.nan, .nan, .nan, .nan, .nan, 0, .nan⟩, [], [], [], [], [], []⟩

/-- The payload of a successful run (concrete scenarios only). -/
def okD (e : Except String RunResult) : RunResult :=
  match e with
  | .ok r => r
  | .error _ => emptyRun

/-- Turtle run on the crash series (one BUY then one losing SELL). -/
def resA : RunResult := okD (run_strategy "TURTLE" psT 1000 0 0 none barsA)

/-- Turtle run on `barsB` without a metrics window. -/
def resB : RunResult := okD (run_strategy "TURTLE" psT 10000 0 0 none barsB)

/-- The same run as `resB` with the metrics window `[4, 5]`, which contains
the second BUY but not the first BUY/SELL pair. -/
def resBW : RunResult :=
  okD (run_strategy "TURTLE" psT 10000 0 0 (some (4, 5)) barsB)

/-- A run with an unrecognized strategy identifier. -/
def resFOO : RunResult := okD (run_strategy "FOO" [] 10000 0 0 none barsA)

/-- Parameters whose `shortWindow` is a value `int()` rejects. -/
def psBad : Params := [("shortWindow", .other "ValueError")]

/-- A run whose strategy signal calculation raises internally. -/
def resERR : RunResult :=
  okD (run_strategy "SMA_CROSSOVER" psBad 1000 0 0 none barsA)

/-- A frame with all required columns but non-ascending dates. -/
def badFrame : RawFrame :=
  ⟨["open", "high", "low", "close", "volume"],
   [⟨2, [1, 1, 1, 1, 0]⟩, ⟨1, [2, 2, 2, 2, 0]⟩]⟩

/-- Risk parameters activating a 5% stop-loss and a 2% trailing stop. -/
def psRisk : Params := [("stopLoss", .num 5), ("trailingStop", .num 2)]

/-- The known strategy identifiers (quant_engine.py:51-149). -/
def knownStrategies : List String :=
  ["SMA_CROSSOVER", "EMA_CROSSOVER", "RSI_REVERSAL", "BOLLINGER_BANDS",
   "MACD", "MOMENTUM", "TREND_RSI", "VOLATILITY_FILTER", "TURTLE",
   "KELTNER"]

/-! ### Structural lemmas about the shift and the simulator -/

theorem fshift_length (l : List Bool) : (fshift l).length = l.length := by
  simp [fshift]

theorem fshift_getD_zero (l : List Bool) : sigAt (fshift l) 0 = false := by
  cases l with
  | nil => rfl
  | cons a t => rfl

theorem fshift_getD_succ (l : List Bool) (i : Nat) (h : i + 1 < l.length) :
    sigAt (fshift l) (i + 1) = sigAt l i := by
  unfold sigAt fshift
  rw [List.getD_eq_getElem?_getD, List.getElem?_take_of_lt h,
    List.getElem?_cons_succ, List.getD_eq_getElem?_getD]

theorem sigAt_fshift_true (l : List Bool) (i : Nat)
    (h : sigAt (fshift l) i = true) : 1 ≤ i ∧ sigAt l (i - 1) = true := by
  cases i with
  | zero => rw [fshift_getD_zero] at h; exact absurd h (by simp)
  | succ j =>
    refine ⟨Nat.le_add_left 1 j, ?_⟩
    by_cases hj : j + 1 < l.length
    · rw [fshift_getD_succ l j hj] at h
      simpa using h
    · have hlen : (fshift l).length ≤ j + 1 := by
        rw [fshift_length]; omega
      rw [sigAt, List.getD_eq_default _ _ hlen] at h
      exact absurd h (by simp)

theorem fshift_replicate_false (n : Nat) :
    fshift (List.replicate n false) = List.replicate n false := by
  have h : (false :: List.replicate n false) = List.replicate (n + 1) false := by
    simp [List.replicate_succ]
  rw [fshift, List.length_replicate, h, List.take_replicate]
  simp

theorem sigAt_replicate_false (n i : Nat) :
    sigAt (List.replicate n false) i = false := by
  unfold sigAt
  by_cases h : i < n
  · rw [List.getD_eq_getElem _ _ (by simpa using h)]
    simp
  · rw [List.getD_eq_default]
    simpa using Nat.le_of_not_lt h

theorem doSell_orders (cfg : SimCfg) (i : Nat) (d : ℤ) (pr : ℚ) (p : Pos)
    (st : SimSt) :
    (doSell cfg i d pr p st).orders = st.orders ++ [⟨i, d, .sell, pr⟩] := rfl

theorem doSell_equity (cfg : SimCfg) (i : Nat) (d : ℤ) (pr : ℚ) (p : Pos)
    (st : SimSt) : (doSell cfg i d pr p st).equity = st.equity := rfl

theorem tryBuy_cases (cfg : SimCfg) (i : Nat) (b : Bar) (st : SimSt) :
    tryBuy cfg i b st = st ∨
      (tryBuy cfg i b st).orders =
        st.orders ++ [⟨i, b.date, .buy, b.openPrice * (1 + cfg.slippage)⟩] := by
  simp only [tryBuy]
  split_ifs with h
  · right; rfl
  · left; rfl

theorem applyStops_order (cfg : SimCfg) (i : Nat) (b : Bar) (p : Pos)
    (st : SimSt) (o : Order) (ho : o ∈ (applyStops cfg i b p st).orders) :
    o ∈ st.orders ∨
      (o.idx = i ∧ o.side = .sell ∧
        (cfg.slStop.isSome = true ∨ cfg.tpStop.isSome = true)) := by
  unfold applyStops at ho
  rcases hsl : cfg.slStop with _ | sl <;> rcases htp : cfg.tpStop with _ | tp <;>
      simp only [hsl, htp] at ho <;> (try split_ifs at ho) <;>
    first
      | exact Or.inl ho
      | (rw [doSell_orders] at ho
         rcases List.mem_append.mp ho with h | h
         · exact Or.inl h
         · simp only [List.mem_singleton] at h
           subst h
           exact Or.inr ⟨rfl, rfl, by simp⟩)

theorem applyStops_orders_prefix (cfg : SimCfg) (i : Nat) (b : Bar) (p : Pos)
    (st : SimSt) :
    ∃ l, (applyStops cfg i b p st).orders = st.orders ++ l := by
  unfold applyStops
  rcases hsl : cfg.slStop with _ | sl <;> rcases htp : cfg.tpStop with _ | tp <;>
      simp only [hsl, htp] <;> (try split_ifs) <;>
    first
      | exact ⟨[], (List.append_nil _).symm⟩
      | exact ⟨_, rfl⟩

theorem applyStops_equity (cfg : SimCfg) (i : Nat) (b : Bar) (p : Pos)
    (st : SimSt) : (applyStops cfg i b p st).equity = st.equity := by
  unfold applyStops
  rcases hsl : cfg.slStop with _ | sl <;> rcases htp : cfg.tpStop with _ | tp <;>
      simp only [hsl, htp] <;> (try split_ifs) <;> rfl

theorem sigSellStep_order (cfg : SimCfg) (x : Bool) (i : Nat) (b : Bar)
    (st : SimSt) (o : Order) (ho : o ∈ (sigSellStep cfg x i b st).orders) :
    o ∈ st.orders ∨ (o.idx = i ∧ o.side = .sell ∧ x = true) := by
  unfold sigSellStep at ho
  by_cases hx : x = true
  · rw [if_pos hx] at ho
    rcases hp : st.pos with _ | p <;> rw [hp] at ho
    · exact Or.inl ho
    · rw [doSell_orders] at ho
      rcases List.mem_append.mp ho with h | h
      · exact Or.inl h
      · simp only [List.mem_singleton] at h
        subst h
        exact Or.inr ⟨rfl, rfl, hx⟩
  · rw [if_neg hx] at ho
    exact Or.inl ho

theorem sigBuyStep_order (cfg : SimCfg) (e : Bool) (i : Nat) (b : Bar)
    (st : SimSt) (o : Order) (ho : o ∈ (sigBuyStep cfg e i b st).orders) :
    o ∈ st.orders ∨ (o.idx = i ∧ o.side = .buy ∧ e = true) := by
  unfold sigBuyStep at ho
  by_cases hc : (e && (st.pos.isNone || cfg.accumulate)) = true
  · rw [if_pos hc] at ho
    rcases tryBuy_cases cfg i b st with h | h
    · rw [h] at ho
      exact Or.inl ho
    · rw [h] at ho
      rcases List.mem_append.mp ho with h2 | h2
      · exact Or.inl h2
      · simp only [List.mem_singleton] at h2
        subst h2
        refine Or.inr ⟨rfl, rfl, ?_⟩
        simp only [Bool.and_eq_true] at hc
        exact hc.1
  · rw [if_neg hc] at ho
    exact Or.inl ho

theorem stopStep_order (cfg : SimCfg) (i : Nat) (b : Bar) (st : SimSt)
    (o : Order) (ho : o ∈ (stopStep cfg i b st).orders) :
    o ∈ st.orders ∨
      (o.idx = i ∧ o.side = .sell ∧
        (cfg.slStop.isSome = true ∨ cfg.tpStop.isSome = true)) := by
  unfold stopStep at ho
  rcases hp : st.pos with _ | p <;> rw [hp] at ho
  · exact Or.inl ho
  · rcases applyStops_order cfg i b p st o ho with h | h
    · exact Or.inl h
    · exact Or.inr h

theorem markEquity_orders (b : Bar) (st : SimSt) :
    (markEquity b st).orders = st.orders := rfl

/-- Orders appended by one simulated bar carry that bar's index; a BUY
requires the (uncancelled) entry signal, a SELL requires the (uncancelled)
exit signal or an active stop overlay. -/
theorem stepBar_order (cfg : SimCfg) (ent ext : Bool) (i : Nat) (b : Bar)
    (st : SimSt) (o : Order)
    (ho : o ∈ (stepBar cfg ent ext i b st).orders) :
    o ∈ st.orders ∨
      (o.idx = i ∧
        (o.side = .buy → ent = true ∧ ext = false) ∧
        (o.side = .sell →
          (ext = true ∧ ent = false) ∨
            cfg.slStop.isSome = true ∨ cfg.tpStop.isSome = true)) := by
  unfold stepBar at ho
  rw [markEquity_orders] at ho
  rcases stopStep_order _ _ _ _ _ ho with h3 | h3
  · rcases sigBuyStep_order _ _ _ _ _ _ h3 with h2 | h2
    · rcases sigSellStep_order _ _ _ _ _ _ h2 with h1 | h1
      · exact Or.inl h1
      · obtain ⟨hidx, hside, hx⟩ := h1
        refine Or.inr ⟨hidx, ?_, ?_⟩
        · intro hb; rw [hside] at hb; cases hb
        · intro _
          simp only [Bool.and_eq_true, Bool.not_eq_true'] at hx
          exact Or.inl ⟨hx.1, hx.2⟩
    · obtain ⟨hidx, hside, he⟩ := h2
      refine Or.inr ⟨hidx, ?_, ?_⟩
      · intro _
        simp only [Bool.and_eq_true, Bool.not_eq_true'] at he
        exact ⟨he.1, he.2⟩
      · intro hs; rw [hside] at hs; cases hs
  · obtain ⟨hidx, hside, hstop⟩ := h3
    refine Or.inr ⟨hidx, ?_, fun _ => Or.inr hstop⟩
    intro hb; rw [hside] at hb; cases hb

theorem tryBuy_equity (cfg : SimCfg) (i : Nat) (b : Bar) (st : SimSt) :
    (tryBuy cfg i b st).equity = st.equity := by
  simp only [tryBuy]
  split_ifs <;> rfl

theorem sigSellStep_equity (cfg : SimCfg) (x : Bool) (i : Nat) (b : Bar)
    (st : SimSt) : (sigSellStep cfg x i b st).equity = st.equity := by
  unfold sigSellStep
  split_ifs
  · rcases hp : st.pos with _ | p
    · rfl
    · rfl
  · rfl

theorem sigBuyStep_equity (cfg : SimCfg) (e : Bool) (i : Nat) (b : Bar)
    (st : SimSt) : (sigBuyStep cfg e i b st).equity = st.equity := by
  unfold sigBuyStep
  split_ifs
  · exact tryBuy_equity cfg i b st
  · rfl

theorem stopStep_equity (cfg : SimCfg) (i : Nat) (b : Bar) (st : SimSt) :
    (stopStep cfg i b st).equity = st.equity := by
  unfold stopStep
  rcases hp : st.pos with _ | p <;> simp only [hp]
  exact applyStops_equity cfg i b p st

theorem markEquity_equity (b : Bar) (st : SimSt) :
    (markEquity b st).equity = st.equity ++
      [st.cash + (match st.pos with
        | some p => p.shares * b.close
        | none => 0)] := rfl

theorem stepBar_equity_shape (cfg : SimCfg) (ent ext : Bool) (i : Nat)
    (b : Bar) (st : SimSt) :
    ∃ v, (stepBar cfg ent ext i b st).equity = st.equity ++ [v] := by
  unfold stepBar
  rw [markEquity_equity, stopStep_equity, sigBuyStep_equity,
    sigSellStep_equity]
  exact ⟨_, rfl⟩

theorem sigSellStep_orders_prefix (cfg : SimCfg) (x : Bool) (i : Nat)
    (b : Bar) (st : SimSt) :
    ∃ l, (sigSellStep cfg x i b st).orders = st.orders ++ l := by
  unfold sigSellStep
  split_ifs
  · rcases hp : st.pos with _ | p <;> simp only [hp]
    · exact ⟨[], (List.append_nil _).symm⟩
    · exact ⟨_, rfl⟩
  · exact ⟨[], (List.append_nil _).symm⟩

theorem sigBuyStep_orders_prefix (cfg : SimCfg) (e : Bool) (i : Nat)
    (b : Bar) (st : SimSt) :
    ∃ l, (sigBuyStep cfg e i b st).orders = st.orders ++ l := by
  unfold sigBuyStep
  split_ifs
  · rcases tryBuy_cases cfg i b st with h | h
    · exact ⟨[], by rw [h, List.append_nil]⟩
    · exact ⟨_, h⟩
  · exact ⟨[], (List.append_nil _).symm⟩

theorem stopStep_orders_prefix (cfg : SimCfg) (i : Nat) (b : Bar)
    (st : SimSt) :
    ∃ l, (stopStep cfg i b st).orders = st.orders ++ l := by
  unfold stopStep
  rcases hp : st.pos with _ | p <;> simp only [hp]
  · exact ⟨[], (List.append_nil _).symm⟩
  · exact applyStops_orders_prefix cfg i b p st

theorem stepBar_orders_prefix (cfg : SimCfg) (ent ext : Bool) (i : Nat)
    (b : Bar) (st : SimSt) :
    ∃ l, (stepBar cfg ent ext i b st).orders = st.orders ++ l := by
  obtain ⟨l1, h1⟩ := sigSellStep_orders_prefix cfg (ext && !ent) i b st
  obtain ⟨l2, h2⟩ := sigBuyStep_orders_prefix cfg (ent && !ext) i b
    (sigSellStep cfg (ext && !ent) i b st)
  obtain ⟨l3, h3⟩ := stopStep_orders_prefix cfg i b
    (sigBuyStep cfg (ent && !ext) i b (sigSellStep cfg (ext && !ent) i b st))
  refine ⟨l1 ++ l2 ++ l3, ?_⟩
  unfold stepBar
  rw [markEquity_orders, h3, h2, h1]
  simp [List.append_assoc]

/-- A bar with no (uncancelled) entry signal and no open position does
nothing but record the cash as that bar's equity. -/
theorem stepBar_no_action (cfg : SimCfg) (ent ext : Bool) (i : Nat) (b : Bar)
    (st : SimSt) (hpos : st.pos = none) (hent : ent = false) :
    stepBar cfg ent ext i b st = { st with equity := st.equity ++ [st.cash] } := by
  have hsell : sigSellStep cfg (ext && !ent) i b st = st := by
    unfold sigSellStep
    split_ifs <;> simp [hpos]
  have hbuy : sigBuyStep cfg (ent && !ext) i b st = st := by
    unfold sigBuyStep
    rw [hent]
    simp
  have hstop : stopStep cfg i b st = st := by
    unfold stopStep
    rw [hpos]
  unfold stepBar
  rw [hsell, hbuy, hstop, markEquity, hpos]
  simp

/-- With no open position, one simulated bar either does nothing (recording
equity) or appends at least one order. -/
theorem stepBar_pos_none (cfg : SimCfg) (ent ext : Bool) (i : Nat) (b : Bar)
    (st : SimSt) (hpos : st.pos = none) :
    stepBar cfg ent ext i b st = { st with equity := st.equity ++ [st.cash] } ∨
      ∃ l, l ≠ [] ∧ (stepBar cfg ent ext i b st).orders = st.orders ++ l := by
  have hsell : sigSellStep cfg (ext && !ent) i b st = st := by
    unfold sigSellStep
    split_ifs <;> simp [hpos]
  by_cases hcond : ((ent && !ext) && (st.pos.isNone || cfg.accumulate)) = true
  · have hbuy : sigBuyStep cfg (ent && !ext) i b st = tryBuy cfg i b st := by
      unfold sigBuyStep
      rw [if_pos hcond]
    rcases tryBuy_cases cfg i b st with h | h
    · left
      have hstop : stopStep cfg i b st = st := by
        unfold stopStep
        rw [hpos]
      unfold stepBar
      rw [hsell, hbuy, h, hstop, markEquity, hpos]
      simp
    · right
      obtain ⟨l3, h3⟩ := stopStep_orders_prefix cfg i b (tryBuy cfg i b st)
      refine ⟨[⟨i, b.date, .buy, b.openPrice * (1 + cfg.slippage)⟩] ++ l3, by simp, ?_⟩
      unfold stepBar
      rw [markEquity_orders, hsell, hbuy, h3, h]
      simp [List.append_assoc]
  · left
    have hbuy : sigBuyStep cfg (ent && !ext) i b st = st := by
      unfold sigBuyStep
      rw [if_neg hcond]
    have hstop : stopStep cfg i b st = st := by
      unfold stopStep
      rw [hpos]
    unfold stepBar
    rw [hsell, hbuy, hstop, markEquity, hpos]
    simp

theorem go_orders_prefix (cfg : SimCfg) (ents exts : List Bool) :
    ∀ (bars : List Bar) (i : Nat) (st : SimSt),
      ∃ l, (simulate.go cfg ents exts i st bars).orders = st.orders ++ l := by
  intro bars
  induction bars with
  | nil => exact fun i st => ⟨[], by simp [simulate.go]⟩
  | cons b rest ih =>
    intro i st
    obtain ⟨l2, h2⟩ := ih (i + 1)
      (stepBar cfg (sigAt ents i) (sigAt exts i) i b st)
    obtain ⟨l1, h1⟩ := stepBar_orders_prefix cfg (sigAt ents i)
      (sigAt exts i) i b st
    exact ⟨l1 ++ l2, by rw [simulate.go, h2, h1, List.append_assoc]⟩

/-- Every order of a simulation run was emitted at its own bar: a BUY only
where the shifted entry signal is set (and the exit is not), a SELL only
where the shifted exit signal is set (and the entry is not) or a stop
overlay is active. -/
theorem go_order (cfg : SimCfg) (ents exts : List Bool) :
    ∀ (bars : List Bar) (i : Nat) (st : SimSt) (o : Order),
      o ∈ (simulate.go cfg ents exts i st bars).orders →
      o ∈ st.orders ∨
        ((o.side = .buy →
            sigAt ents o.idx = true ∧ sigAt exts o.idx = false) ∧
         (o.side = .sell →
            (sigAt exts o.idx = true ∧ sigAt ents o.idx = false) ∨
              cfg.slStop.isSome = true ∨ cfg.tpStop.isSome = true)) := by
  intro bars
  induction bars with
  | nil => exact fun i st o ho => Or.inl (by simpa [simulate.go] using ho)
  | cons b rest ih =>
    intro i st o ho
    rw [simulate.go] at ho
    rcases ih (i + 1) _ o ho with h | h
    · rcases stepBar_order cfg (sigAt ents i) (sigAt exts i) i b st o h with
        h2 | h2
      · exact Or.inl h2
      · obtain ⟨hidx, hb, hs⟩ := h2
        subst hidx
        exact Or.inr ⟨hb, hs⟩
    · exact Or.inr h

theorem go_equity_shape (cfg : SimCfg) (ents exts : List Bool) :
    ∀ (bars : List Bar) (i : Nat) (st : SimSt),
      ∃ l, (simulate.go cfg ents exts i st bars).equity = st.equity ++ l ∧
        l.length = bars.length := by
  intro bars
  induction bars with
  | nil => exact fun i st => ⟨[], by simp [simulate.go]⟩
  | cons b rest ih =>
    intro i st
    obtain ⟨l2, h2, hlen2⟩ := ih (i + 1)
      (stepBar cfg (sigAt ents i) (sigAt exts i) i b st)
    obtain ⟨v, h1⟩ := stepBar_equity_shape cfg (sigAt ents i) (sigAt exts i)
      i b st
    refine ⟨[v] ++ l2, ?_, by simp [hlen2]⟩
    rw [simulate.go, h2, h1, List.append_assoc]

/-- With an all-false entry series and no open position, the simulation
does nothing: no orders, no trades, and a constant equity curve at the
running cash. -/
theorem go_flat (cfg : SimCfg) (ents exts : List Bool)
    (hents : ∀ j, sigAt ents j = false) :
    ∀ (bars : List Bar) (i : Nat) (st : SimSt), st.pos = none →
      simulate.go cfg ents exts i st bars =
        { st with equity := st.equity ++ List.replicate bars.length st.cash } := by
  intro bars
  induction bars with
  | nil => intro i st _; simp [simulate.go]
  | cons b rest ih =>
    intro i st hpos
    rw [simulate.go, stepBar_no_action cfg _ _ i b st hpos (hents i),
      ih (i + 1) _ (by simpa using hpos)]
    simp [List.replicate_succ]

/-- If a simulation starting with no position emits no order, it was flat
throughout: nothing changed except the equity record. -/
theorem go_no_new_orders (cfg : SimCfg) (ents exts : List Bool) :
    ∀ (bars : List Bar) (i : Nat) (st : SimSt), st.pos = none →
      (simulate.go cfg ents exts i st bars).orders = st.orders →
      simulate.go cfg ents exts i st bars =
        { st with equity := st.equity ++ List.replicate bars.length st.cash } := by
  intro bars
  induction bars with
  | nil => intro i st _ _; simp [simulate.go]
  | cons b rest ih =>
    intro i st hpos horders
    rw [simulate.go] at horders ⊢
    rcases stepBar_pos_none cfg (sigAt ents i) (sigAt exts i) i b st hpos
      with h | h
    · rw [h] at horders ⊢
      rw [ih (i + 1) _ (by simpa using hpos) horders]
      simp [List.replicate_succ]
    · exfalso
      obtain ⟨l, hl, hord⟩ := h
      obtain ⟨l2, h2⟩ := go_orders_prefix cfg ents exts rest (i + 1)
        (stepBar cfg (sigAt ents i) (sigAt exts i) i b st)
      rw [h2, hord, List.append_assoc] at horders
      have : (l ++ l2).length = 0 := by
        have := congrArg List.length horders
        simpa using this
      rcases l with _ | ⟨a, l⟩
      · exact hl rfl
      · simp at this

theorem head?_append_left {α : Type} (l l2 : List α) (h : l ≠ []) :
    (l ++ l2).head? = l.head? := by
  cases l with
  | nil => exact absurd rfl h
  | cons a t => rfl

theorem ne_nil_of_getLast?_eq_some {α : Type} {l : List α} {o : α}
    (h : l.getLast? = some o) : l ≠ [] := by
  intro hn
  subst hn
  simp at h

/-- Appending one order to a log that satisfies the alternation shape keeps
it alternating, provided the new side differs from the last recorded one. -/
theorem ordersAppendAlt (orders : List Order) (o : Order)
    (hchain : List.Chain' (fun a b => a ≠ b) (orders.map (·.side)))
    (hhead : ∀ o2, orders.head? = some o2 → o2.side = Side.buy)
    (hlink : ∀ o2, orders.getLast? = some o2 → o2.side ≠ o.side)
    (hnil : orders = [] → o.side = Side.buy) :
    List.Chain' (fun a b => a ≠ b) ((orders ++ [o]).map (·.side)) ∧
      (∀ o2, (orders ++ [o]).head? = some o2 → o2.side = Side.buy) := by
  constructor
  · rw [List.map_append]
    rw [List.chain'_append]
    refine ⟨hchain, List.chain'_singleton _, ?_⟩
    intro x hx y hy
    rw [List.getLast?_map] at hx
    rcases horders : orders.getLast? with _ | o2
    · rw [horders] at hx
      simp at hx
    · rw [horders] at hx
      have hx2 : o2.side = x := by simpa using hx
      have hy2 : o.side = y := by simpa using hy
      rw [← hx2, ← hy2]
      exact hlink o2 horders
  · intro o2 ho2
    cases horders : orders with
    | nil =>
      subst horders
      simp only [List.nil_append, List.head?_cons] at ho2
      cases ho2
      exact hnil rfl
    | cons a t =>
      rw [head?_append_left _ _ (by simp [horders])] at ho2
      exact hhead o2 ho2

/-- `doSell` preserves the alternation invariant when closing an open
position. -/
theorem doSell_alt (cfg : SimCfg) (i : Nat) (d : ℤ) (pr : ℚ) (p : Pos)
    (st : SimSt) (hpos : st.pos = some p) (hinv : altInv st) :
    altInv (doSell cfg i d pr p st) := by
  obtain ⟨h1, h2, h3, h4⟩ := hinv
  obtain ⟨hcash, o, hlast, hside⟩ := h1 p hpos
  have happ := ordersAppendAlt st.orders ⟨i, d, .sell, pr⟩ h3 h4
    (fun o2 ho2 => by
      rw [hlast] at ho2
      cases ho2
      rw [hside]
      simp)
    (fun hn => by rw [hn] at hlast; simp at hlast)
  refine ⟨?_, ?_, happ.1, happ.2⟩
  · intro p' hp'
    exact Option.noConfusion hp'
  · intro _
    right
    exact ⟨⟨i, d, .sell, pr⟩, by rw [doSell_orders, List.getLast?_concat], rfl⟩

/-- A buy with 100% sizing from a flat state with zero or negative cash is
ignored. -/
theorem tryBuy_no_cash (cfg : SimCfg) (i : Nat) (b : Bar) (st : SimSt)
    (hsize : cfg.size = 1) (hc : st.cash ≤ 0) : tryBuy cfg i b st = st := by
  simp only [tryBuy, hsize, one_mul]
  rw [if_neg]
  intro h
  exact absurd h.1 (not_lt.mpr hc)

/-- Structure of a successful percent-sized buy from a flat state. -/
theorem tryBuy_none_spec (cfg : SimCfg) (i : Nat) (b : Bar) (st : SimSt)
    (hpos : st.pos = none) :
    tryBuy cfg i b st = st ∨
      (0 < cfg.size * st.cash ∧ 0 < b.openPrice * (1 + cfg.slippage) ∧
        0 < 1 + cfg.fees ∧
        tryBuy cfg i b st =
          { st with
            cash := st.cash - cfg.size * st.cash,
            pos := some ⟨cfg.size * st.cash /
                (b.openPrice * (1 + cfg.slippage) * (1 + cfg.fees)),
              b.openPrice * (1 + cfg.slippage), cfg.size * st.cash, b.close⟩,
            orders := st.orders ++
              [⟨i, b.date, .buy, b.openPrice * (1 + cfg.slippage)⟩] }) := by
  simp only [tryBuy, hpos]
  split_ifs with h
  · exact Or.inr ⟨h.1, h.2.1, h.2.2, rfl⟩
  · exact Or.inl rfl

theorem sigSellStep_alt (cfg : SimCfg) (x : Bool) (i : Nat) (b : Bar)
    (st : SimSt) (hinv : altInv st) : altInv (sigSellStep cfg x i b st) := by
  unfold sigSellStep
  split_ifs
  · rcases hp : st.pos with _ | p
    · exact hinv
    · exact doSell_alt cfg i b.date (b.openPrice * (1 - cfg.slippage)) p st
        hp hinv
  · exact hinv

theorem sigBuyStep_alt (cfg : SimCfg) (e : Bool) (i : Nat) (b : Bar)
    (st : SimSt) (hsize : cfg.size = 1) (hinv : altInv st) :
    altInv (sigBuyStep cfg e i b st) := by
  unfold sigBuyStep
  split_ifs
  · rcases hp : st.pos with _ | p
    · rcases tryBuy_none_spec cfg i b st hp with h | ⟨_, _, _, h⟩
      · rw [h]; exact hinv
      · rw [h]
        obtain ⟨h1, h2, h3, h4⟩ := hinv
        have hlinked : ∀ o2, st.orders.getLast? = some o2 →
            o2.side ≠ Side.buy := by
          intro o2 ho2
          rcases h2 hp with hn | ⟨o3, ho3, hs3⟩
          · rw [hn] at ho2; simp at ho2
          · rw [ho3] at ho2
            cases ho2
            rw [hs3]
            simp
        have happ := ordersAppendAlt st.orders
          ⟨i, b.date, .buy, b.openPrice * (1 + cfg.slippage)⟩ h3 h4
          (fun o2 ho2 => hlinked o2 ho2) (fun _ => rfl)
        refine ⟨?_, ?_, happ.1, happ.2⟩
        · intro p' hp'
          refine ⟨by simp [hsize], ?_⟩
          exact ⟨_, List.getLast?_concat _, rfl⟩
        · intro hnone
          simp at hnone
    · have hc := (hinv.1 p hp).1
      rw [tryBuy_no_cash cfg i b st hsize (le_of_eq hc)]
      exact hinv
  · exact hinv

theorem applyStops_alt (cfg : SimCfg) (i : Nat) (b : Bar) (p : Pos)
    (st : SimSt) (hp : st.pos = some p) (hinv : altInv st) :
    altInv (applyStops cfg i b p st) := by
  have hupdate : altInv { st with pos := some { p with peak := max p.peak b.close } } := by
    obtain ⟨h1, h2, h3, h4⟩ := hinv
    refine ⟨?_, ?_, h3, h4⟩
    · intro p' hp'
      exact (h1 p hp).imp id id
    · intro hnone
      simp at hnone
  unfold applyStops
  rcases hsl : cfg.slStop with _ | sl <;> rcases htp : cfg.tpStop with _ | tp <;>
      simp only [hsl, htp] <;> (try split_ifs) <;>
    first
      | exact hupdate
      | exact doSell_alt cfg i b.date _ p st hp hinv

theorem stopStep_alt (cfg : SimCfg) (i : Nat) (b : Bar) (st : SimSt)
    (hinv : altInv st) : altInv (stopStep cfg i b st) := by
  unfold stopStep
  rcases hp : st.pos with _ | p
  · exact hinv
  · exact applyStops_alt cfg i b p st hp hinv

theorem markEquity_alt (b : Bar) (st : SimSt) (hinv : altInv st) :
    altInv (markEquity b st) := hinv

theorem stepBar_alt (cfg : SimCfg) (ent ext : Bool) (i : Nat) (b : Bar)
    (st : SimSt) (hsize : cfg.size = 1) (hinv : altInv st) :
    altInv (stepBar cfg ent ext i b st) :=
  markEquity_alt _ _
    (stopStep_alt _ _ _ _
      (sigBuyStep_alt _ _ _ _ _ hsize
        (sigSellStep_alt _ _ _ _ _ hinv)))

theorem go_alt (cfg : SimCfg) (ents exts : List Bool)
    (hsize : cfg.size = 1) :
    ∀ (bars : List Bar) (i : Nat) (st : SimSt), altInv st →
      altInv (simulate.go cfg ents exts i st bars) := by
  intro bars
  induction bars with
  | nil => intro i st h; simpa [simulate.go] using h
  | cons b rest ih =>
    intro i st h
    rw [simulate.go]
    exact ih (i + 1) _ (stepBar_alt cfg _ _ i b st hsize h)

theorem doSell_good (cfg : SimCfg) (i : Nat) (d : ℤ) (pr : ℚ) (p : Pos)
    (st : SimSt) (_hfees : 0 ≤ cfg.fees) (hfees1 : cfg.fees < 1)
    (hpr : 0 < pr) (hsh : 0 < p.shares) (hcash : 0 ≤ st.cash) :
    goodState (doSell cfg i d pr p st) := by
  constructor
  · intro _
    have hnet : 0 < p.shares * pr - p.shares * pr * cfg.fees := by
      have h1 : 0 < p.shares * pr := mul_pos hsh hpr
      nlinarith
    simp only [doSell]
    linarith
  · intro p' hp'
    exact Option.noConfusion hp'

theorem applyStops_good (cfg : SimCfg) (i : Nat) (b : Bar) (p : Pos)
    (st : SimSt) (hcfg : goodCfg cfg) (hbar : goodBar b)
    (hp : st.pos = some p) (hgood : goodState st) :
    goodState (applyStops cfg i b p st) := by
  obtain ⟨_, hfees, hfees1, hslip, hslip1, htpPos⟩ := hcfg
  obtain ⟨hcash, hsh, hentry⟩ := hgood.2 p hp
  have hclose := hbar.2
  have hupdate : goodState
      { st with pos := some { p with peak := max p.peak b.close } } := by
    constructor
    · intro hn; simp at hn
    · intro p' hp'
      simp only [Option.some.injEq] at hp'
      subst hp'
      exact ⟨hcash, hsh, hentry⟩
  have keySL : ∀ lvl : ℚ, b.close ≤ lvl →
      goodState (doSell cfg i b.date (lvl * (1 - cfg.slippage)) p st) := by
    intro lvl hlvl
    refine doSell_good cfg i b.date _ p st hfees hfees1 ?_ hsh
      (le_of_eq hcash.symm)
    have h1 : 0 < lvl := lt_of_lt_of_le hclose hlvl
    exact mul_pos h1 (by linarith)
  have keyTP : ∀ t : ℚ, 0 < t →
      goodState (doSell cfg i b.date
        (p.entryPrice * (1 + t) * (1 - cfg.slippage)) p st) := by
    intro t ht
    refine doSell_good cfg i b.date _ p st hfees hfees1 ?_ hsh
      (le_of_eq hcash.symm)
    have h1 : 0 < p.entryPrice * (1 + t) := by nlinarith
    exact mul_pos h1 (by linarith)
  unfold applyStops
  rcases hsl : cfg.slStop with _ | sl <;> rcases htp : cfg.tpStop with _ | tp <;>
    simp only [hsl, htp]
  · exact hupdate
  · by_cases hc : p.entryPrice * (1 + tp) ≤ b.close
    · rw [if_pos hc]
      exact keyTP tp (htpPos tp htp)
    · rw [if_neg hc]
      exact hupdate
  · by_cases hc : b.close ≤
      (if cfg.slTrail then max p.peak b.close else p.entryPrice) * (1 - sl)
    · rw [if_pos hc]
      exact keySL _ hc
    · rw [if_neg hc]
      exact hupdate
  · by_cases hc : b.close ≤
      (if cfg.slTrail then max p.peak b.close else p.entryPrice) * (1 - sl)
    · rw [if_pos hc]
      exact keySL _ hc
    · rw [if_neg hc]
      by_cases hc2 : p.entryPrice * (1 + tp) ≤ b.close
      · rw [if_pos hc2]
        exact keyTP tp (htpPos tp htp)
      · rw [if_neg hc2]
        exact hupdate

theorem sigSellStep_good (cfg : SimCfg) (x : Bool) (i : Nat) (b : Bar)
    (st : SimSt) (hcfg : goodCfg cfg) (hbar : goodBar b)
    (hgood : goodState st) : goodState (sigSellStep cfg x i b st) := by
  obtain ⟨_, hfees, hfees1, hslip, hslip1, _⟩ := hcfg
  unfold sigSellStep
  split_ifs
  · rcases hp : st.pos with _ | p
    · exact hgood
    · obtain ⟨hcash, hsh, _⟩ := hgood.2 p hp
      refine doSell_good cfg i b.date _ p st hfees hfees1 ?_ hsh
        (le_of_eq hcash.symm)
      have := hbar.1
      nlinarith
  · exact hgood

theorem sigBuyStep_good (cfg : SimCfg) (e : Bool) (i : Nat) (b : Bar)
    (st : SimSt) (hcfg : goodCfg cfg) (hgood : goodState st) :
    goodState (sigBuyStep cfg e i b st) := by
  unfold sigBuyStep
  split_ifs
  · rcases hp : st.pos with _ | p
    · rcases tryBuy_none_spec cfg i b st hp with h | ⟨hspend, hpadj, hfee, h⟩
      · rw [h]; exact hgood
      · rw [h]
        constructor
        · intro hn; simp at hn
        · intro p' hp'
          simp only [Option.some.injEq] at hp'
          subst hp'
          refine ⟨by simp [hcfg.1], ?_, hpadj⟩
          exact div_pos hspend (mul_pos hpadj hfee)
    · have hc := (hgood.2 p hp).1
      rw [tryBuy_no_cash cfg i b st hcfg.1 (le_of_eq hc)]
      exact hgood
  · exact hgood

theorem stopStep_good (cfg : SimCfg) (i : Nat) (b : Bar) (st : SimSt)
    (hcfg : goodCfg cfg) (hbar : goodBar b) (hgood : goodState st) :
    goodState (stopStep cfg i b st) := by
  unfold stopStep
  rcases hp : st.pos with _ | p
  · exact hgood
  · exact applyStops_good cfg i b p st hcfg hbar hp hgood

/-- A healthy state marks a strictly positive equity value. -/
theorem goodState_markValue (st : SimSt) (b : Bar) (hb : 0 < b.close)
    (h : goodState st) :
    0 < st.cash + (match st.pos with
      | some p => p.shares * b.close
      | none => 0) := by
  rcases hp : st.pos with _ | p
  · have := h.1 hp
    simpa using this
  · obtain ⟨hcash, hsh, _⟩ := h.2 p hp
    rw [hcash]
    simpa using mul_pos hsh hb

/-- Under the documented input contract one simulated bar preserves state
healthiness and records a strictly positive mark-to-market equity. -/
theorem stepBar_good (cfg : SimCfg) (ent ext : Bool) (i : Nat) (b : Bar)
    (st : SimSt) (hcfg : goodCfg cfg) (hbar : goodBar b)
    (hgood : goodState st) :
    goodState (stepBar cfg ent ext i b st) ∧
      ∃ v, 0 < v ∧ (stepBar cfg ent ext i b st).equity = st.equity ++ [v] := by
  have h3 : goodState (stopStep cfg i b
      (sigBuyStep cfg (ent && !ext) i b
        (sigSellStep cfg (ext && !ent) i b st))) :=
    stopStep_good cfg i b _ hcfg hbar
      (sigBuyStep_good cfg _ i b _ hcfg
        (sigSellStep_good cfg _ i b _ hcfg hbar hgood))
  refine ⟨h3, ⟨_, goodState_markValue _ b hbar.2 h3, ?_⟩⟩
  unfold stepBar
  rw [markEquity_equity, stopStep_equity, sigBuyStep_equity,
    sigSellStep_equity]

theorem go_good (cfg : SimCfg) (ents exts : List Bool) (hcfg : goodCfg cfg) :
    ∀ (bars : List Bar) (i : Nat) (st : SimSt),
      (∀ b ∈ bars, goodBar b) → goodState st →
      goodState (simulate.go cfg ents exts i st bars) ∧
        ∀ v ∈ (simulate.go cfg ents exts i st bars).equity,
          v ∈ st.equity ∨ 0 < v := by
  intro bars
  induction bars with
  | nil =>
    intro i st _ hgood
    exact ⟨by simpa [simulate.go] using hgood,
      fun v hv => Or.inl (by simpa [simulate.go] using hv)⟩
  | cons b rest ih =>
    intro i st hbars hgood
    obtain ⟨hg1, v, hv, hveq⟩ := stepBar_good cfg (sigAt ents i)
      (sigAt exts i) i b st hcfg (hbars b (by simp)) hgood
    obtain ⟨ihg, ihmem⟩ := ih (i + 1) _ (fun b2 hb2 => hbars b2 (by simp [hb2]))
      hg1
    rw [simulate.go]
    refine ⟨ihg, ?_⟩
    intro v2 hv2
    rcases ihmem v2 hv2 with h | h
    · rw [hveq] at h
      rcases List.mem_append.mp h with h2 | h2
      · exact Or.inl h2
      · simp only [List.mem_singleton] at h2
        subst h2
        exact Or.inr hv
    · exact Or.inr h

theorem simulate_order (cfg : SimCfg) (ents exts : List Bool)
    (bars : List Bar) (o : Order)
    (ho : o ∈ (simulate cfg ents exts bars).orders) :
    (o.side = .buy → sigAt ents o.idx = true ∧ sigAt exts o.idx = false) ∧
    (o.side = .sell →
      (sigAt exts o.idx = true ∧ sigAt ents o.idx = false) ∨
        cfg.slStop.isSome = true ∨ cfg.tpStop.isSome = true) := by
  rcases go_order cfg ents exts bars 0 _ o ho with h | h
  · simp at h
  · exact h

theorem simulate_alt (cfg : SimCfg) (ents exts : List Bool)
    (bars : List Bar) (hsize : cfg.size = 1) :
    altInv (simulate cfg ents exts bars) := by
  refine go_alt cfg ents exts hsize bars 0 _ ?_
  refine ⟨fun p hp => Option.noConfusion hp, fun _ => Or.inl rfl, ?_, ?_⟩
  · simp
  · intro o ho
    simp at ho

theorem simulate_good (cfg : SimCfg) (ents exts : List Bool)
    (bars : List Bar) (hcfg : goodCfg cfg) (hcash : 0 < cfg.initCash)
    (hbars : ∀ b ∈ bars, goodBar b) :
    goodState (simulate cfg ents exts bars) ∧
      ∀ v ∈ (simulate cfg ents exts bars).equity, 0 < v := by
  have h0 : goodState (⟨cfg.initCash, none, [], [], []⟩ : SimSt) :=
    ⟨fun _ => hcash, fun p hp => Option.noConfusion hp⟩
  obtain ⟨hg, hmem⟩ := go_good cfg ents exts hcfg bars 0 _ hbars h0
  refine ⟨hg, fun v hv => ?_⟩
  rcases hmem v hv with h | h
  · simp at h
  · exact h

theorem simulate_flat (cfg : SimCfg) (ents exts : List Bool)
    (bars : List Bar) (hents : ∀ j, sigAt ents j = false) :
    simulate cfg ents exts bars =
      ⟨cfg.initCash, none, [], [],
        List.replicate bars.length cfg.initCash⟩ := by
  rw [simulate, go_flat cfg ents exts hents bars 0 _ rfl]
  rfl

theorem simulate_no_orders (cfg : SimCfg) (ents exts : List Bool)
    (bars : List Bar)
    (horders : (simulate cfg ents exts bars).orders = []) :
    simulate cfg ents exts bars =
      ⟨cfg.initCash, none, [], [],
        List.replicate bars.length cfg.initCash⟩ := by
  rw [simulate, go_no_new_orders cfg ents exts bars 0 _ rfl horders]
  rfl

theorem simulate_equity_len (cfg : SimCfg) (ents exts : List Bool)
    (bars : List Bar) :
    (simulate cfg ents exts bars).equity.length = bars.length := by
  obtain ⟨l, hl, hlen⟩ := go_equity_shape cfg ents exts bars 0
    ⟨cfg.initCash, none, [], [], []⟩
  rw [simulate, hl]
  simpa using hlen

theorem go_head (cfg : SimCfg) (ents exts : List Bool) (bars : List Bar)
    (i : Nat) (st : SimSt) (h : st.equity ≠ []) :
    (simulate.go cfg ents exts i st bars).equity.head? = st.equity.head? := by
  obtain ⟨l, hl, _⟩ := go_equity_shape cfg ents exts bars i st
  rw [hl]
  exact head?_append_left _ _ h

theorem simulate_equity_head (cfg : SimCfg) (ents exts : List Bool)
    (b : Bar) (rest : List Bar) (hent0 : sigAt ents 0 = false) :
    (simulate cfg ents exts (b :: rest)).equity.head? =
      some cfg.initCash := by
  rw [simulate, simulate.go,
    stepBar_no_action cfg _ _ 0 b _ rfl hent0,
    go_head cfg ents exts rest 1 _ (by simp)]
  simp

theorem runCore_entries (stype : String) (ps : Params) (capital : ℚ)
    (cfg : SimCfg) (mwindow : Option (ℤ × ℤ)) (bars : List Bar) :
    (runCore stype ps capital cfg mwindow bars).entries =
      (sigOf stype ps bars).entries := rfl

theorem runCore_exits (stype : String) (ps : Params) (capital : ℚ)
    (cfg : SimCfg) (mwindow : Option (ℤ × ℤ)) (bars : List Bar) :
    (runCore stype ps capital cfg mwindow bars).exits =
      (sigOf stype ps bars).exits := rfl

theorem runCore_indicators (stype : String) (ps : Params) (capital : ℚ)
    (cfg : SimCfg) (mwindow : Option (ℤ × ℤ)) (bars : List Bar) :
    (runCore stype ps capital cfg mwindow bars).indicators =
      (sigOf stype ps bars).indicators := rfl

theorem runCore_orders (stype : String) (ps : Params) (capital : ℚ)
    (cfg : SimCfg) (mwindow : Option (ℤ × ℤ)) (bars : List Bar) :
    (runCore stype ps capital cfg mwindow bars).orders =
      (simulate cfg (fshift (sigOf stype ps bars).entries)
        (fshift (sigOf stype ps bars).exits) bars).orders := rfl

theorem runCore_equity (stype : String) (ps : Params) (capital : ℚ)
    (cfg : SimCfg) (mwindow : Option (ℤ × ℤ)) (bars : List Bar) :
    (runCore stype ps capital cfg mwindow bars).equity =
      (simulate cfg (fshift (sigOf stype ps bars).entries)
        (fshift (sigOf stype ps bars).exits) bars).equity := rfl

theorem runCore_metrics_window (stype : String) (ps : Params) (capital : ℚ)
    (cfg : SimCfg) (mwindow : Option (ℤ × ℤ)) (bars : List Bar) :
    (runCore stype ps capital cfg mwindow bars).metrics =
      (runCore stype ps capital cfg none bars).metrics := by
  rcases mwindow with _ | w
  · rfl
  · rfl

theorem runCore_maxDrawdown (stype : String) (ps : Params) (capital : ℚ)
    (cfg : SimCfg) (mwindow : Option (ℤ × ℤ)) (bars : List Bar) :
    (runCore stype ps capital cfg mwindow bars).metrics.maxDrawdown =
      pyMulC (vbtMaxDrawdown
        (runCore stype ps capital cfg mwindow bars).equity) 100 := by
  rcases mwindow with _ | w
  · rfl
  · rfl

theorem runCore_totalReturn (stype : String) (ps : Params) (capital : ℚ)
    (cfg : SimCfg) (mwindow : Option (ℤ × ℤ)) (bars : List Bar) :
    (runCore stype ps capital cfg mwindow bars).metrics.totalReturn =
      (match (runCore stype ps capital cfg mwindow bars).equity.getLast? with
       | some v => pyMulC (pySubC (pyDivQ v capital) 1) 100
       | none => .nan) := by
  rcases mwindow with _ | w
  · rfl
  · rfl

theorem runCore_finalCapital (stype : String) (ps : Params) (capital : ℚ)
    (cfg : SimCfg) (mwindow : Option (ℤ × ℤ)) (bars : List Bar) :
    (runCore stype ps capital cfg mwindow bars).metrics.finalCapital =
      (match (runCore stype ps capital cfg mwindow bars).equity.getLast? with
       | some v => PyFloat.num v
       | none => .nan) := by
  rcases mwindow with _ | w
  · rfl
  · rfl

theorem runCore_initialCapital (stype : String) (ps : Params) (capital : ℚ)
    (cfg : SimCfg) (mwindow : Option (ℤ × ℤ)) (bars : List Bar) :
    (runCore stype ps capital cfg mwindow bars).metrics.initialCapital =
      .num ((runCore stype ps capital cfg mwindow bars).equity.head?.getD
        capital) := by
  rcases mwindow with _ | w
  · rfl
  · rfl

theorem runCore_sharpe (stype : String) (ps : Params) (capital : ℚ)
    (cfg : SimCfg) (mwindow : Option (ℤ × ℤ)) (bars : List Bar) :
    (runCore stype ps capital cfg mwindow bars).metrics.sharpeRatio =
      pyNanToZero (sharpeClass (returnsOf capital
        (runCore stype ps capital cfg mwindow bars).equity)) := by
  rcases mwindow with _ | w
  · rfl
  · rfl

theorem runCore_tradeCount (stype : String) (ps : Params) (capital : ℚ)
    (cfg : SimCfg) (mwindow : Option (ℤ × ℤ)) (bars : List Bar) :
    (runCore stype ps capital cfg mwindow bars).metrics.tradeCount =
      (runCore stype ps capital cfg mwindow bars).orders.length := by
  rcases mwindow with _ | w
  · rfl
  · rfl

theorem runCore_winRate (stype : String) (ps : Params) (capital : ℚ)
    (cfg : SimCfg) (mwindow : Option (ℤ × ℤ)) (bars : List Bar) :
    (runCore stype ps capital cfg mwindow bars).metrics.winRate =
      pyMulC (pyNanToZero (winRateOf
        ((simulate cfg (fshift (sigOf stype ps bars).entries)
            (fshift (sigOf stype ps bars).exits) bars).pnls ++
          (match (simulate cfg (fshift (sigOf stype ps bars).entries)
              (fshift (sigOf stype ps bars).exits) bars).pos,
              bars.getLast? with
           | some p, some b => [p.shares * b.close - p.costBasis]
           | _, _ => [])))) 100 := by
  rcases mwindow with _ | w
  · rfl
  · rfl

theorem filterMap_some_map (l : List Order) :
    l.filterMap (fun o => some (tradeRowOf o)) = l.map tradeRowOf := by
  induction l with
  | nil => rfl
  | cons a t ih => simp [List.filterMap_cons, ih]

theorem runCore_trades_none (stype : String) (ps : Params) (capital : ℚ)
    (cfg : SimCfg) (bars : List Bar) :
    (runCore stype ps capital cfg none bars).trades =
      (runCore stype ps capital cfg none bars).orders.map tradeRowOf :=
  filterMap_some_map _

theorem filterMap_window (orders : List Order) (a b : ℤ) :
    orders.filterMap (fun o =>
      if o.date < a ∨ b < o.date then none else some (tradeRowOf o)) =
      (orders.map tradeRowOf).filter
        (fun t => decide (a ≤ t.date) && decide (t.date ≤ b)) := by
  induction orders with
  | nil => rfl
  | cons o rest ih =>
    simp only [List.filterMap_cons, List.map_cons, List.filter_cons]
    by_cases h : o.date < a ∨ b < o.date
    · rw [if_pos h, ih]
      have hfalse : (decide (a ≤ (tradeRowOf o).date) &&
          decide ((tradeRowOf o).date ≤ b)) = false := by
        simp only [tradeRowOf, Bool.and_eq_false_iff, decide_eq_false_iff_not]
        omega
      rw [hfalse]
      simp
    · rw [if_neg h, ih]
      push_neg at h
      have htrue : (decide (a ≤ (tradeRowOf o).date) &&
          decide ((tradeRowOf o).date ≤ b)) = true := by
        simp only [tradeRowOf, Bool.and_eq_true, decide_eq_true_eq]
        omega
      rw [htrue]
      simp

theorem runCore_trades_window (stype : String) (ps : Params) (capital : ℚ)
    (cfg : SimCfg) (a b : ℤ) (bars : List Bar) :
    (runCore stype ps capital cfg (some (a, b)) bars).trades =
      ((runCore stype ps capital cfg none bars).trades).filter
        (fun t => decide (a ≤ t.date) && decide (t.date ≤ b)) := by
  rw [runCore_trades_none]
  exact filterMap_window _ a b

theorem ddRatios_eq_neg_spec (l : List ℚ) :
    ∀ peak : ℚ, 0 ≤ peak → (∀ v ∈ l, 0 < v) →
      ddRatios peak l = (specDDList peak l).map (fun x => -x) := by
  induction l with
  | nil => intro peak _ _; rfl
  | cons v r ih =>
    intro peak hpeak hpos
    have hv : 0 < v := hpos v (by simp)
    have hmax : 0 < max peak v := lt_of_lt_of_le hv (le_max_right _ _)
    rw [ddRatios, specDDList, List.map_cons,
      ih (max peak v) (le_of_lt hmax) (fun w hw => hpos w (by simp [hw]))]
    congr 1
    field_simp

theorem ddRatios_nonpos (l : List ℚ) :
    ∀ peak : ℚ, 0 ≤ peak → (∀ v ∈ l, 0 < v) →
      ∀ x ∈ ddRatios peak l, x ≤ 0 := by
  induction l with
  | nil => intro peak _ _ x hx; simp [ddRatios] at hx
  | cons v r ih =>
    intro peak hpeak hpos x hx
    have hv : 0 < v := hpos v (by simp)
    have hmax : 0 < max peak v := lt_of_lt_of_le hv (le_max_right _ _)
    rw [ddRatios] at hx
    rcases List.mem_cons.mp hx with h | h
    · subst h
      have : v / max peak v ≤ 1 := (div_le_one hmax).mpr (le_max_right _ _)
      linarith
    · exact ih (max peak v) (le_of_lt hmax)
        (fun w hw => hpos w (by simp [hw])) x h

theorem foldl_min_le_init (l : List ℚ) : ∀ a : ℚ, List.foldl min a l ≤ a := by
  induction l with
  | nil => intro a; simp
  | cons x r ih =>
    intro a
    calc List.foldl min (min a x) r ≤ min a x := ih (min a x)
    _ ≤ a := min_le_left a x

theorem foldl_min_neg_max (l : List ℚ) :
    ∀ a : ℚ, List.foldl min (-a) (l.map (fun x => -x)) =
      -(List.foldl max a l) := by
  induction l with
  | nil => intro a; rfl
  | cons x r ih =>
    intro a
    simp only [List.map_cons, List.foldl_cons]
    have hmm : min (-a) (-x) = -(max a x) := by
      rcases le_total a x with h | h
      · rw [max_eq_right h, min_eq_right (neg_le_neg h)]
      · rw [max_eq_left h, min_eq_left (neg_le_neg h)]
    rw [hmm, ih (max a x)]

theorem ddRatios_monotone_zero (l : List ℚ) :
    ∀ peak : ℚ, (∀ v ∈ l, 0 < v) → List.Chain' (· ≤ ·) l →
      (∀ v, l.head? = some v → peak ≤ v) →
      ddRatios peak l = List.replicate l.length 0 := by
  induction l with
  | nil => intro peak _ _ _; rfl
  | cons v r ih =>
    intro peak hpos hchain hhead
    have hv : 0 < v := hpos v (by simp)
    have hpk : peak ≤ v := hhead v rfl
    have hmax : max peak v = v := max_eq_right hpk
    obtain ⟨hnext, htail⟩ := List.chain'_cons'.mp hchain
    rw [ddRatios, hmax, div_self (ne_of_gt hv), List.length_cons,
      List.replicate_succ,
      ih v (fun w hw => hpos w (by simp [hw])) htail
        (fun w hw => hnext w hw)]
    norm_num

theorem foldl_min_replicate_zero (n : Nat) :
    List.foldl min (0 : ℚ) (List.replicate n 0) = 0 := by
  induction n with
  | zero => rfl
  | succ m ih => simpa [List.replicate_succ] using ih

theorem list_sum_nonneg_zero (f : ℚ → ℚ) (l : List ℚ)
    (hf : ∀ x ∈ l, 0 ≤ f x) (h : (l.map f).sum = 0) :
    ∀ x ∈ l, f x = 0 := by
  induction l with
  | nil => intro x hx; simp at hx
  | cons a t ih =>
    intro x hx
    have hrest : 0 ≤ (t.map f).sum := by
      refine List.sum_nonneg ?_
      intro y hy
      obtain ⟨z, hz, hzy⟩ := List.mem_map.mp hy
      rw [← hzy]
      exact hf z (by simp [hz])
    have ha : 0 ≤ f a := hf a (by simp)
    simp only [List.map_cons, List.sum_cons] at h
    rcases List.mem_cons.mp hx with hxa | hxt
    · subst hxa; linarith
    · exact ih (fun y hy => hf y (by simp [hy])) (by linarith) x hxt

theorem varQ_zero_all_eq (l : List ℚ) (hn : 2 ≤ l.length)
    (h : varQ l = 0) : ∀ x ∈ l, x = meanQ l := by
  unfold varQ at h
  have hden : ((l.length : ℚ) - 1) ≠ 0 := by
    have : (2 : ℚ) ≤ (l.length : ℚ) := by exact_mod_cast hn
    intro hc
    rw [sub_eq_zero] at hc
    rw [hc] at this
    norm_num at this
  have hsum : ((l.map (fun x => (x - meanQ l) ^ 2)).sum) = 0 := by
    rcases div_eq_zero_iff.mp h with h2 | h2
    · exact h2
    · exact absurd h2 hden
  intro x hx
  have := list_sum_nonneg_zero (fun y => (y - meanQ l) ^ 2) l
    (fun y _ => sq_nonneg _) hsum x hx
  have h3 : x - meanQ l = 0 := by
    exact pow_eq_zero_iff (by norm_num) |>.mp this
  linarith

theorem returnsOf_nums (equity : List ℚ) :
    ∀ capital : ℚ, capital ≠ 0 → (∀ v ∈ equity, v ≠ 0) →
      returnsOf capital equity =
        (List.zipWith (fun v p => v / p - 1) equity (capital :: equity)).map
          PyFloat.num := by
  induction equity with
  | nil => intro capital _ _; rfl
  | cons v r ih =>
    intro capital hcap hpos
    have hv : v ≠ 0 := hpos v (by simp)
    have htail := ih v hv (fun w hw => hpos w (by simp [hw]))
    unfold returnsOf at htail ⊢
    simp only [List.zipWith_cons_cons, List.map_cons]
    rw [htail]
    congr 1
    simp [pyDivQ, pySubC, hcap]

theorem filterMap_num (qs : List ℚ) :
    (qs.map PyFloat.num).filterMap (fun x =>
      match x with | .num q => some q | _ => none) = qs := by
  induction qs with
  | nil => rfl
  | cons a t ih => simp [List.filterMap_cons, ih]

theorem pyDivQ_num (a b : ℚ) (hb : b ≠ 0) : pyDivQ a b = .num (a / b) := by
  unfold pyDivQ
  rw [if_neg hb]

theorem pyNanToZero_num (q : ℚ) : pyNanToZero (.num q) = .num q := by
  unfold pyNanToZero
  rw [if_neg (by simp)]

theorem winRate_field_num (pnls : List ℚ) :
    (pyMulC (pyNanToZero (winRateOf pnls)) 100).isNum = true := by
  unfold winRateOf
  split_ifs
  · rfl
  · rw [pyNanToZero_num]
    rfl

theorem vbtMaxDrawdown_ne_nil (equity : List ℚ) (h : equity ≠ []) :
    vbtMaxDrawdown equity = .num ((ddRatios 0 equity).foldl min 0) := by
  cases equity with
  | nil => exact absurd rfl h
  | cons v r => rfl

theorem chain'_le_replicate (n : Nat) (c : ℚ) :
    List.Chain' (· ≤ ·) (List.replicate n c) := by
  induction n with
  | zero => simp
  | succ m ih =>
    rw [List.replicate_succ]
    refine List.chain'_cons'.mpr ⟨?_, ih⟩
    intro y hy
    cases m with
    | zero => simp at hy
    | succ k =>
      rw [List.replicate_succ] at hy
      simp only [List.head?_cons, Option.mem_def, Option.some.injEq] at hy
      exact le_of_eq hy

theorem getLast?_replicate_succ (n : Nat) (c : ℚ) :
    (List.replicate (n + 1) c).getLast? = some c := by
  induction n with
  | zero => rfl
  | succ m ih =>
    rw [List.replicate_succ, List.getLast?_cons, ih]
    rfl

theorem riskCfg_fields (ps : Params) (capital fees slippage : ℚ)
    (cfg : SimCfg) (hc : riskCfg ps capital fees slippage = .ok cfg) :
    cfg.size = 1 ∧ cfg.accumulate = true ∧ cfg.initCash = capital ∧
      cfg.fees = fees ∧ cfg.slippage = slippage ∧
      (∀ t, cfg.tpStop = some t → 0 < t) := by
  unfold riskCfg at hc
  rcases h1 : getRisk ps ("stopLoss") with e | slv <;> rw [h1] at hc
  · cases hc
  rcases h2 : getRisk ps ("takeProfit") with e | tpv <;> rw [h2] at hc
  · cases hc
  rcases h3 : getRisk ps ("trailingStop") with e | tsv <;> rw [h3] at hc
  · cases hc
  injection hc with hc
  subst hc
  refine ⟨rfl, rfl, rfl, rfl, rfl, ?_⟩
  intro t ht
  simp only at ht
  split_ifs at ht with h
  cases ht
  exact h

theorem riskCfg_good (ps : Params) (capital fees slippage : ℚ)
    (cfg : SimCfg) (hc : riskCfg ps capital fees slippage = .ok cfg)
    (hfees : 0 ≤ fees) (hfees1 : fees < 1) (hslip : 0 ≤ slippage)
    (hslip1 : slippage < 1) : goodCfg cfg := by
  obtain ⟨hsize, _, _, hf, hs, htp⟩ := riskCfg_fields ps capital fees
    slippage cfg hc
  exact ⟨hsize, by rw [hf]; exact hfees, by rw [hf]; exact hfees1,
    by rw [hs]; exact hslip, by rw [hs]; exact hslip1, htp⟩

theorem riskOk_cfg (ps : Params) (capital fees slippage : ℚ)
    (hrisk : riskOk ps) :
    ∃ cfg, riskCfg ps capital fees slippage = .ok cfg := by
  obtain ⟨hsl, htp, hts⟩ := hrisk
  unfold riskCfg
  rcases h1 : getRisk ps ("stopLoss") with e | slv
  · rw [h1] at hsl; cases hsl
  rcases h2 : getRisk ps ("takeProfit") with e | tpv
  · rw [h2] at htp; cases htp
  rcases h3 : getRisk ps ("trailingStop") with e | tsv
  · rw [h3] at hts; cases hts
  exact ⟨_, rfl⟩

theorem run_strategy_ok_iff (stype : String) (ps : Params)
    (capital fees slippage : ℚ) (mwindow : Option (ℤ × ℤ))
    (bars : List Bar) (r : RunResult)
    (h : run_strategy stype ps capital fees slippage mwindow bars = .ok r) :
    ∃ cfg, riskCfg ps capital fees slippage = .ok cfg ∧
      r = runCore stype ps capital cfg mwindow bars := by
  unfold run_strategy at h
  rcases hc : riskCfg ps capital fees slippage with e | cfg <;> rw [hc] at h
  · cases h
  · injection h with h
    exact ⟨cfg, rfl, h.symm⟩

theorem strategySignals_unknown (stype : String) (ps : Params)
    (bars : List Bar) (h : stype ∉ knownStrategies) :
    strategySignals stype ps bars = .ok (flatSig bars.length) := by
  simp only [knownStrategies, List.mem_cons, List.mem_singleton,
    not_or] at h
  obtain ⟨h1, h2, h3, h4, h5, h6, h7, h8, h9, h10, _⟩ := h
  unfold strategySignals
  rw [if_neg h1, if_neg h2, if_neg h3, if_neg h4, if_neg h5, if_neg h6,
    if_neg h7, if_neg h8, if_neg h9, if_neg h10]

theorem map_num_all_isNum (qs : List ℚ) :
    ((qs.map PyFloat.num).all fun x => x.isNum) = true := by
  induction qs with
  | nil => rfl
  | cons a t ih => simp [PyFloat.isNum, ih]

/-- With positive initial capital, a positive equity curve that starts at
the initial capital, and no metrics window, the Sharpe field is always a
finite number: the realizable zero-variance case forces a zero mean
(the first return is zero), which is NaN and is normalized to 0. -/
theorem sharpe_field_num (capital : ℚ) (equity : List ℚ)
    (hcap : 0 < capital) (hpos : ∀ v ∈ equity, 0 < v)
    (hhead : equity.head? = some capital) :
    (pyNanToZero (sharpeClass (returnsOf capital equity))).isNum = true := by
  have hcap0 : capital ≠ 0 := ne_of_gt hcap
  have hpos0 : ∀ v ∈ equity, v ≠ 0 := fun v hv => ne_of_gt (hpos v hv)
  have hnums := returnsOf_nums equity capital hcap0 hpos0
  set qs := List.zipWith (fun v p => v / p - 1) equity (capital :: equity)
    with hqs
  have hq0mem : equity ≠ [] → (0 : ℚ) ∈ qs := by
    intro hne
    cases equity with
    | nil => exact absurd rfl hne
    | cons e0 rest =>
      have he0 : e0 = capital := by
        simp only [List.head?_cons, Option.some.injEq] at hhead
        exact hhead
      rw [hqs]
      simp only [List.zipWith_cons_cons]
      rw [he0, div_self hcap0]
      simp
  unfold sharpeClass
  by_cases hlen : (returnsOf capital equity).length ≤ 1
  · rw [if_pos hlen]
    rfl
  rw [if_neg hlen, hnums, map_num_all_isNum, if_pos rfl]
  simp only [filterMap_num]
  by_cases hvar : varQ qs = 0
  · rw [if_pos hvar]
    have hmean : meanQ qs = 0 := by
      rw [hnums, List.length_map] at hlen
      have hlen2 : 2 ≤ qs.length := by omega
      have hall0 := varQ_zero_all_eq qs hlen2 hvar
      have hne : equity ≠ [] := by
        intro hx
        rw [hqs, hx] at hlen2
        simp at hlen2
      exact (hall0 0 (hq0mem hne)).symm
    rw [if_pos hmean]
    rfl
  · rw [if_neg hvar, pyNanToZero_num]
    rfl

/-! ### Claim theorems -/

/-- C1: the execution simulator shifts both the raw entries and the raw
exits forward by exactly one bar (`fshift`, applied to both series before
`simulate` generates orders), treating the undefined value introduced at
the first position as false; hence every BUY order sits at an index `i ≥ 1`
with the raw entry set at `i - 1` — an order resulting from a raw entry at
`t` occurs at `t + 1 ≥ t + 1`, never at `t`. -/
theorem C1_lookahead_shift (stype : String) (ps : Params)
    (capital fees slippage : ℚ) (mwindow : Option (ℤ × ℤ))
    (bars : List Bar) (r : RunResult)
    (h : run_strategy stype ps capital fees slippage mwindow bars = .ok r) :
    (∀ l : List Bool, (fshift l).length = l.length ∧
        sigAt (fshift l) 0 = false ∧
        (∀ i, i + 1 < l.length → sigAt (fshift l) (i + 1) = sigAt l i)) ∧
    (∀ cfg, riskCfg ps capital fees slippage = .ok cfg →
        r.orders = (simulate cfg (fshift r.entries) (fshift r.exits)
          bars).orders) ∧
    (∀ o ∈ r.orders, o.side = .buy →
        1 ≤ o.idx ∧ sigAt r.entries (o.idx - 1) = true) := by
  obtain ⟨cfg, hc, hr⟩ := run_strategy_ok_iff stype ps capital fees slippage
    mwindow bars r h
  subst hr
  refine ⟨?_, ?_, ?_⟩
  · exact fun l => ⟨fshift_length l, fshift_getD_zero l,
      fun i hi => fshift_getD_succ l i hi⟩
  · intro cfg2 hc2
    rw [hc] at hc2
    injection hc2 with hc2
    subst hc2
    rw [runCore_orders, runCore_entries, runCore_exits]
  · intro o ho hbuy
    rw [runCore_orders] at ho
    have hsig := (simulate_order _ _ _ _ o ho).1 hbuy
    have h2 := sigAt_fshift_true _ _ hsig.1
    rw [runCore_entries]
    exact h2

unseal Rat.mul Rat.add Rat.sub Rat.inv in
/-- C1 witness: in the Turtle run on `barsB` the BUY recorded at bar 4
comes from the raw entry at bar 3. -/
theorem C1_lookahead_shift_witness :
    1 ≤ (⟨4, 4, .buy, 25⟩ : Order).idx ∧
      sigAt resB.entries ((⟨4, 4, .buy, 25⟩ : Order).idx - 1) = true :=
  (C1_lookahead_shift "TURTLE" psT 10000 0 0 none barsB resB rfl).2.2
    ⟨4, 4, .buy, 25⟩ (by decide) rfl

/-- C3: with the engine's hardcoded configuration (`accumulate := true`
but 100% percent sizing, which leaves zero free cash while a position is
open, so re-entry orders are zero-size and never recorded), the order log
strictly alternates BUY/SELL starting with a BUY — each open position
admits exactly one BUY before the next SELL, for every caller parameter
mapping. -/
theorem C3_no_reentry_buys (stype : String) (ps : Params)
    (capital fees slippage : ℚ) (mwindow : Option (ℤ × ℤ))
    (bars : List Bar) (r : RunResult)
    (h : run_strategy stype ps capital fees slippage mwindow bars = .ok r) :
    List.Chain' (fun a b => a ≠ b) (r.orders.map (·.side)) ∧
      (∀ o, r.orders.head? = some o → o.side = Side.buy) := by
  obtain ⟨cfg, hc, hr⟩ := run_strategy_ok_iff stype ps capital fees slippage
    mwindow bars r h
  subst hr
  rw [runCore_orders]
  have hsize := (riskCfg_fields ps capital fees slippage cfg hc).1
  have hinv := simulate_alt cfg (fshift (sigOf stype ps bars).entries)
    (fshift (sigOf stype ps bars).exits) bars hsize
  exact ⟨hinv.2.2.1, hinv.2.2.2⟩

/-- C3 witness: the `barsB` run emits BUY, SELL, BUY — alternating sides
headed by a BUY. -/
theorem C3_no_reentry_buys_witness :
    List.Chain' (fun a b => a ≠ b) (resB.orders.map (·.side)) ∧
      (∀ o, resB.orders.head? = some o → o.side = Side.buy) :=
  C3_no_reentry_buys "TURTLE" psT 10000 0 0 none barsB resB rfl

/-- C5: any strategy identifier outside the known set of ten variants
yields all-false entries, all-false exits and an empty indicator map, and
the run returns normally (the risk parameters being numeric or absent, as
the parameter contract requires). -/
theorem C5_unknown_strategy (stype : String) (ps : Params)
    (capital fees slippage : ℚ) (mwindow : Option (ℤ × ℤ))
    (bars : List Bar) (hunknown : stype ∉ knownStrategies)
    (hrisk : riskOk ps) :
    ∃ r, run_strategy stype ps capital fees slippage mwindow bars = .ok r ∧
      r.entries = List.replicate bars.length false ∧
      r.exits = List.replicate bars.length false ∧
      r.indicators = [] := by
  obtain ⟨cfg, hc⟩ := riskOk_cfg ps capital fees slippage hrisk
  have hsig : sigOf stype ps bars = flatSig bars.length := by
    unfold sigOf
    rw [strategySignals_unknown stype ps bars hunknown]
  refine ⟨runCore stype ps capital cfg mwindow bars, ?_, ?_, ?_, ?_⟩
  · unfold run_strategy
    rw [hc]
  · rw [runCore_entries, hsig]; rfl
  · rw [runCore_exits, hsig]; rfl
  · rw [runCore_indicators, hsig]; rfl

/-- C5 witness: the identifier "FOO" on a four-bar series. -/
theorem C5_unknown_strategy_witness :
    ∃ r, run_strategy "FOO" [] 10000 0 0 none barsA = .ok r ∧
      r.entries = List.replicate barsA.length false ∧
      r.exits = List.replicate barsA.length false ∧
      r.indicators = [] :=
  C5_unknown_strategy "FOO" [] 10000 0 0 none barsA (by decide)
    ⟨rfl, rfl, rfl⟩

/-- C6: when the strategy signal calculation raises internally, the run
degrades to flat — both returned signal series are all-false, no order is
generated, the ledger is empty — and the run completes normally instead of
aborting. -/
theorem C6_internal_error_flat (stype : String) (ps : Params)
    (capital fees slippage : ℚ) (mwindow : Option (ℤ × ℤ))
    (bars : List Bar) (e : String)
    (herr : strategySignals stype ps bars = .error e)
    (hrisk : riskOk ps) :
    ∃ r, run_strategy stype ps capital fees slippage mwindow bars = .ok r ∧
      r.entries = List.replicate bars.length false ∧
      r.exits = List.replicate bars.length false ∧
      r.orders = [] ∧ r.trades = [] := by
  obtain ⟨cfg, hc⟩ := riskOk_cfg ps capital fees slippage hrisk
  have hsig : sigOf stype ps bars = flatSig bars.length := by
    unfold sigOf
    rw [herr]
  have hents : ∀ j, sigAt (fshift (sigOf stype ps bars).entries) j = false := by
    intro j
    rw [hsig]
    show sigAt (fshift (List.replicate bars.length false)) j = false
    rw [fshift_replicate_false, sigAt_replicate_false]
  have hflat := simulate_flat cfg (fshift (sigOf stype ps bars).entries)
    (fshift (sigOf stype ps bars).exits) bars hents
  have horders : (runCore stype ps capital cfg mwindow bars).orders = [] := by
    rw [runCore_orders, hflat]
  refine ⟨runCore stype ps capital cfg mwindow bars, ?_, ?_, ?_, horders, ?_⟩
  · unfold run_strategy
    rw [hc]
  · rw [runCore_entries, hsig]; rfl
  · rw [runCore_exits, hsig]; rfl
  · show (simulate cfg (fshift (sigOf stype ps bars).entries)
      (fshift (sigOf stype ps bars).exits) bars).orders.filterMap _ = []
    rw [hflat]
    rcases mwindow with _ | w <;> rfl

/-- C6 witness: an `int()`-rejected `shortWindow` value makes the SMA
branch raise; the run still returns, flat. -/
theorem C6_internal_error_flat_witness :
    ∃ r, run_strategy "SMA_CROSSOVER" psBad 1000 0 0 none barsA = .ok r ∧
      r.entries = List.replicate barsA.length false ∧
      r.exits = List.replicate barsA.length false ∧
      r.orders = [] ∧ r.trades = [] :=
  C6_internal_error_flat "SMA_CROSSOVER" psBad 1000 0 0 none barsA
    ("ValueError") rfl ⟨rfl, rfl, rfl⟩

/-- C10: every row of the returned trade ledger carries the constant
reason string "Signal / Risk Trigger" — the ledger never distinguishes
whether a SELL came from a strategy exit, a stop-loss, a take-profit or a
trailing stop. -/
theorem C10_ledger_reason_constant (stype : String) (ps : Params)
    (capital fees slippage : ℚ) (mwindow : Option (ℤ × ℤ))
    (bars : List Bar) (r : RunResult)
    (h : run_strategy stype ps capital fees slippage mwindow bars = .ok r) :
    ∀ t ∈ r.trades, t.reason = "Signal / Risk Trigger" := by
  obtain ⟨cfg, hc, hr⟩ := run_strategy_ok_iff stype ps capital fees slippage
    mwindow bars r h
  subst hr
  intro t ht
  rcases mwindow with _ | w
  · rw [runCore_trades_none] at ht
    obtain ⟨o, _, ho⟩ := List.mem_map.mp ht
    rw [← ho]
    rfl
  · rcases w with ⟨a, b⟩
    rw [runCore_trades_window] at ht
    have ht2 := (List.mem_filter.mp ht).1
    rw [runCore_trades_none] at ht2
    obtain ⟨o, _, ho⟩ := List.mem_map.mp ht2
    rw [← ho]
    rfl

unseal Rat.mul Rat.add Rat.sub Rat.inv in
/-- C10 witness: the BUY row of the crash-scenario ledger carries the
constant reason. -/
theorem C10_ledger_reason_constant_witness :
    (⟨2, "BUY", 10, "Signal / Risk Trigger"⟩ : TradeRow).reason =
      "Signal / Risk Trigger" :=
  C10_ledger_reason_constant "TURTLE" psT 1000 0 0 none barsA resA rfl
    ⟨2, "BUY", 10, "Signal / Risk Trigger"⟩ (by decide)

unseal Rat.mul Rat.add Rat.sub Rat.inv in
/-- C2 counterexample: on the crash scenario the returned maxDrawdown
metric is −50, the negation of the spec formula's value 50, and is not
≥ 0 — `pf.max_drawdown()` reports drawdown as a non-positive fraction. -/
theorem C2_maxDrawdown_counterexample :
    resA.metrics.maxDrawdown = .num (-50) ∧
      specMaxDrawdownPct resA.equity = 50 ∧ ¬ ((0 : ℚ) ≤ -50) := by decide

/-- C2 amended: the maxDrawdown metric equals the NEGATION of the spec's
maximum peak-relative loss percentage; it is always ≤ 0 and equals 0 when
the equity curve is monotonically non-decreasing. -/
theorem C2_maxDrawdown_amended (stype : String) (ps : Params)
    (capital fees slippage : ℚ) (mwindow : Option (ℤ × ℤ))
    (bars : List Bar) (r : RunResult)
    (h : run_strategy stype ps capital fees slippage mwindow bars = .ok r)
    (hcap : 0 < capital) (hfees : 0 ≤ fees) (hfees1 : fees < 1)
    (hslip : 0 ≤ slippage) (hslip1 : slippage < 1)
    (hbars : ∀ b ∈ bars, goodBar b) (hne : bars ≠ []) :
    r.metrics.maxDrawdown = .num (-(specMaxDrawdownPct r.equity)) ∧
      (∀ q, r.metrics.maxDrawdown = .num q → q ≤ 0) ∧
      (List.Chain' (· ≤ ·) r.equity → r.metrics.maxDrawdown = .num 0) := by
  obtain ⟨cfg, hc, hr⟩ := run_strategy_ok_iff stype ps capital fees slippage
    mwindow bars r h
  subst hr
  have hcfgG := riskCfg_good ps capital fees slippage cfg hc hfees hfees1
    hslip hslip1
  have hinit : cfg.initCash = capital :=
    (riskCfg_fields ps capital fees slippage cfg hc).2.2.1
  have hposE : ∀ v ∈ (runCore stype ps capital cfg mwindow bars).equity,
      0 < v := by
    rw [runCore_equity]
    exact (simulate_good cfg _ _ bars hcfgG (by rw [hinit]; exact hcap)
      hbars).2
  have hneE : (runCore stype ps capital cfg mwindow bars).equity ≠ [] := by
    rw [runCore_equity]
    intro hx
    have hl := simulate_equity_len cfg (fshift (sigOf stype ps bars).entries)
      (fshift (sigOf stype ps bars).exits) bars
    rw [hx] at hl
    exact hne (List.length_eq_zero.mp hl.symm)
  rw [runCore_maxDrawdown, vbtMaxDrawdown_ne_nil _ hneE]
  have hdd := ddRatios_eq_neg_spec
    ((runCore stype ps capital cfg mwindow bars).equity) 0 le_rfl hposE
  refine ⟨?_, ?_, ?_⟩
  · rw [hdd]
    have hneg := foldl_min_neg_max
      (specDDList 0 (runCore stype ps capital cfg mwindow bars).equity) 0
    rw [neg_zero] at hneg
    rw [hneg]
    show PyFloat.num _ = PyFloat.num _
    rw [specMaxDrawdownPct]
    congr 1
    ring
  · intro q hq
    have hmin := foldl_min_le_init
      (ddRatios 0 (runCore stype ps capital cfg mwindow bars).equity) 0
    have hq2 : (ddRatios 0
        (runCore stype ps capital cfg mwindow bars).equity).foldl min 0 *
          100 = q := by
      have := hq
      simp only [pyMulC, PyFloat.num.injEq] at this
      exact this
    nlinarith
  · intro hchain
    rw [ddRatios_monotone_zero _ 0 hposE hchain
      (fun v hv => le_of_lt (hposE v (List.mem_of_mem_head? hv))),
      foldl_min_replicate_zero]
    show PyFloat.num _ = PyFloat.num _
    norm_num

unseal Rat.mul Rat.add Rat.sub Rat.inv in
/-- C2 amended witness: the crash scenario instantiates the amended
drawdown characterization. -/
theorem C2_maxDrawdown_amended_witness :
    resA.metrics.maxDrawdown = .num (-(specMaxDrawdownPct resA.equity)) ∧
      (∀ q, resA.metrics.maxDrawdown = .num q → q ≤ 0) ∧
      (List.Chain' (· ≤ ·) resA.equity →
        resA.metrics.maxDrawdown = .num 0) :=
  C2_maxDrawdown_amended "TURTLE" psT 1000 0 0 none barsA resA rfl
    (by norm_num) (by norm_num) (by norm_num) (by norm_num) (by norm_num)
    (by intro b hb; fin_cases hb <;> exact ⟨by decide, by decide⟩)
    (by decide)

/-- C7 amended: requesting a metrics window does not re-run the simulation
and only filters the ledger: the portfolio time slice raises inside
vectorbt and the code falls back to the full portfolio, so every metric —
including initialCapital, which stays the full-run first-bar equity — is
identical to the unwindowed run, and the ledger is the full ledger
restricted to orders dated within the window. -/
theorem C7_metrics_window_amended (stype : String) (ps : Params)
    (capital fees slippage : ℚ) (a b : ℤ) (bars : List Bar)
    (rW rN : RunResult)
    (hw : run_strategy stype ps capital fees slippage (some (a, b)) bars =
      .ok rW)
    (hn : run_strategy stype ps capital fees slippage none bars = .ok rN) :
    rW.metrics = rN.metrics ∧ rW.orders = rN.orders ∧
      rW.equity = rN.equity ∧
      rW.trades = rN.trades.filter
        (fun t => decide (a ≤ t.date) && decide (t.date ≤ b)) ∧
      rW.metrics.initialCapital =
        .num (rN.equity.head?.getD capital) := by
  obtain ⟨cfg, hc, hrw⟩ := run_strategy_ok_iff stype ps capital fees slippage
    (some (a, b)) bars rW hw
  obtain ⟨cfg2, hc2, hrn⟩ := run_strategy_ok_iff stype ps capital fees
    slippage none bars rN hn
  rw [hc] at hc2
  injection hc2 with hc2
  subst hc2
  subst hrw
  subst hrn
  refine ⟨runCore_metrics_window stype ps capital cfg (some (a, b)) bars,
    rfl, rfl, runCore_trades_window stype ps capital cfg a b bars, ?_⟩
  rw [runCore_initialCapital, runCore_equity, runCore_equity]

unseal Rat.mul Rat.add Rat.sub Rat.inv in
/-- C7 counterexample: with the window [4, 5] on the `barsB` run, the
ledger is correctly filtered to the in-window BUY, but initialCapital is
the global initial capital 10000, not the window-start equity 50000/3. -/
theorem C7_metrics_window_counterexample :
    resBW.metrics.initialCapital = .num 10000 ∧
      resBW.equity.getD 4 0 = 50000 / 3 ∧
      (10000 : ℚ) ≠ 50000 / 3 ∧
      resBW.trades = [⟨4, "BUY", 25, "Signal / Risk Trigger"⟩] := by decide

unseal Rat.mul Rat.add Rat.sub Rat.inv in
/-- C7 amended witness: the windowed `barsB` run has the unwindowed
metrics and the date-filtered ledger. -/
theorem C7_metrics_window_amended_witness :
    resBW.metrics = resB.metrics ∧
      resBW.trades = resB.trades.filter
        (fun t => decide ((4 : ℤ) ≤ t.date) && decide (t.date ≤ (5 : ℤ))) :=
  have h := C7_metrics_window_amended "TURTLE" psT 10000 0 0 4 5 barsB
    resBW resB rfl rfl
  ⟨h.1, h.2.2.2.1⟩

/-- C9: a risk-overlay parameter that is absent, zero or negative
deactivates that overlay (`none` in the configuration, and with both stop
overlays off every SELL order requires the shifted exit signal); only a
strictly positive value activates it, as the raw value divided by 100; an
active trailing stop replaces the static stop-loss and sets the trailing
flag. -/
theorem C9_risk_overlay_config (ps : Params) (capital fees slippage : ℚ)
    (slv tpv tsv : ℚ)
    (hsl : getRisk ps ("stopLoss") = .ok slv)
    (htp : getRisk ps ("takeProfit") = .ok tpv)
    (hts : getRisk ps ("trailingStop") = .ok tsv) :
    ∃ cfg, riskCfg ps capital fees slippage = .ok cfg ∧
      (tsv ≤ 0 → cfg.slTrail = false ∧
        cfg.slStop = (if 0 < slv then some slv else none)) ∧
      (0 < tsv → cfg.slTrail = true ∧ cfg.slStop = some tsv) ∧
      cfg.tpStop = (if 0 < tpv then some tpv else none) ∧
      (∀ k, ps.lookup k = none → getRisk ps k = .ok 0) ∧
      (∀ k q, ps.lookup k = some (.num q) → getRisk ps k = .ok (q / 100)) ∧
      (∀ c2 : SimCfg, ∀ ents exts bars, ∀ o ∈ (simulate c2 ents exts
          bars).orders, c2.slStop = none → c2.tpStop = none →
          o.side = Side.sell → sigAt exts o.idx = true) := by
  have hcfg : riskCfg ps capital fees slippage = .ok
      { fees := fees, slippage := slippage, initCash := capital, size := 1,
        accumulate := true,
        tpStop := if 0 < tpv then some tpv else none,
        slStop := match (if 0 < tsv then some tsv else none) with
          | some t => some t
          | none => if 0 < slv then some slv else none,
        slTrail := (if 0 < tsv then some tsv else none).isSome } := by
    unfold riskCfg
    rw [hsl, htp, hts]
  refine ⟨_, hcfg, ?_, ?_, rfl, ?_, ?_, ?_⟩
  · intro hts0
    have hnone : (if 0 < tsv then some tsv else none) = (none : Option ℚ) :=
      if_neg (not_lt.mpr hts0)
    constructor
    · show ((if 0 < tsv then some tsv else none) : Option ℚ).isSome = false
      rw [hnone]
      rfl
    · show (match (if 0 < tsv then some tsv else none) with
        | some t => some t
        | none => if 0 < slv then some slv else none) =
          (if 0 < slv then some slv else none)
      rw [hnone]
  · intro hts1
    have hsome : (if 0 < tsv then some tsv else none) = some tsv :=
      if_pos hts1
    constructor
    · show ((if 0 < tsv then some tsv else none) : Option ℚ).isSome = true
      rw [hsome]
      rfl
    · show (match (if 0 < tsv then some tsv else none) with
        | some t => some t
        | none => if 0 < slv then some slv else none) = some tsv
      rw [hsome]
  · intro k hk
    unfold getRisk
    rw [hk]
  · intro k q hk
    unfold getRisk
    rw [hk]
  · intro c2 ents exts bars o ho hsl0 htp0 hsell
    rcases (simulate_order c2 ents exts bars o ho).2 hsell with h | h | h
    · exact h.1
    · rw [hsl0] at h
      simp at h
    · rw [htp0] at h
      simp at h

/-- C9 witness: `stopLoss = 5` with `trailingStop = 2` yields an active
2% trailing stop that replaces the static stop-loss; the absent
`takeProfit` stays off. -/
theorem C9_risk_overlay_config_witness :
    ∃ cfg, riskCfg psRisk 1000 0 0 = .ok cfg ∧ cfg.slTrail = true ∧
      cfg.slStop = some (2 / 100) ∧ cfg.tpStop = none := by
  obtain ⟨cfg, hc, _, h2, h3, _, _, _⟩ := C9_risk_overlay_config psRisk
    1000 0 0 (5 / 100) 0 (2 / 100) rfl rfl rfl
  refine ⟨cfg, hc, (h2 (by norm_num)).1, (h2 (by norm_num)).2, ?_⟩
  rw [h3]
  norm_num

theorem getLast?_of_ne_nil {α : Type} (l : List α) (h : l ≠ []) :
    ∃ v, l.getLast? = some v := by
  induction l with
  | nil => exact absurd rfl h
  | cons a t ih =>
    cases t with
    | nil => exact ⟨a, rfl⟩
    | cons b u =>
      obtain ⟨v, hv⟩ := ih (by simp)
      refine ⟨v, ?_⟩
      rw [List.getLast?_cons, hv]
      rfl

/-- C8: every metrics field that the engine computes as a float is a
finite number — NaN sharpe (zero variance, which the simulator can only
reach with zero mean since the first return is always 0) and NaN win rate
(no closed trades) are normalized to 0 before the ×100 scaling — and on a
run with no orders at all (the empty-history edge case) totalReturn,
maxDrawdown and winRate are 0 while finalCapital and initialCapital equal
the initial capital. -/
theorem C8_metrics_finite (stype : String) (ps : Params)
    (capital fees slippage : ℚ) (mwindow : Option (ℤ × ℤ))
    (bars : List Bar) (r : RunResult)
    (h : run_strategy stype ps capital fees slippage mwindow bars = .ok r)
    (hcap : 0 < capital) (hfees : 0 ≤ fees) (hfees1 : fees < 1)
    (hslip : 0 ≤ slippage) (hslip1 : slippage < 1)
    (hbars : ∀ b ∈ bars, goodBar b) (hne : bars ≠ []) :
    (r.metrics.totalReturn.isNum = true ∧
      r.metrics.finalCapital.isNum = true ∧
      r.metrics.initialCapital.isNum = true ∧
      r.metrics.maxDrawdown.isNum = true ∧
      r.metrics.winRate.isNum = true ∧
      r.metrics.sharpeRatio.isNum = true) ∧
    (r.orders = [] →
      r.metrics.totalReturn = .num 0 ∧ r.metrics.maxDrawdown = .num 0 ∧
      r.metrics.winRate = .num 0 ∧ r.metrics.finalCapital = .num capital ∧
      r.metrics.initialCapital = .num capital) := by
  obtain ⟨cfg, hc, hr⟩ := run_strategy_ok_iff stype ps capital fees slippage
    mwindow bars r h
  subst hr
  have hcfgG := riskCfg_good ps capital fees slippage cfg hc hfees hfees1
    hslip hslip1
  have hinit : cfg.initCash = capital :=
    (riskCfg_fields ps capital fees slippage cfg hc).2.2.1
  have hposE : ∀ v ∈ (runCore stype ps capital cfg mwindow bars).equity,
      0 < v := by
    rw [runCore_equity]
    exact (simulate_good cfg _ _ bars hcfgG (by rw [hinit]; exact hcap)
      hbars).2
  have hlenE : (runCore stype ps capital cfg mwindow bars).equity.length =
      bars.length := by
    rw [runCore_equity]
    exact simulate_equity_len _ _ _ _
  have hneE : (runCore stype ps capital cfg mwindow bars).equity ≠ [] := by
    intro hx
    rw [hx] at hlenE
    exact hne (List.length_eq_zero.mp hlenE.symm)
  have hheadE : (runCore stype ps capital cfg mwindow bars).equity.head? =
      some capital := by
    rw [runCore_equity]
    rcases bars with _ | ⟨b, rest⟩
    · exact absurd rfl hne
    · rw [simulate_equity_head cfg _ _ b rest (fshift_getD_zero _), hinit]
  constructor
  · obtain ⟨lv, hlv⟩ := getLast?_of_ne_nil _ hneE
    refine ⟨?_, ?_, ?_, ?_, ?_, ?_⟩
    · rw [runCore_totalReturn, hlv]
      show (pyMulC (pySubC (pyDivQ lv capital) 1) 100).isNum = true
      rw [pyDivQ_num lv capital (ne_of_gt hcap)]
      rfl
    · rw [runCore_finalCapital, hlv]
      rfl
    · rw [runCore_initialCapital]
      rfl
    · rw [runCore_maxDrawdown, vbtMaxDrawdown_ne_nil _ hneE]
      rfl
    · rw [runCore_winRate]
      exact winRate_field_num _
    · rw [runCore_sharpe]
      exact sharpe_field_num capital _ hcap hposE hheadE
  · intro hord
    rw [runCore_orders] at hord
    have hflat := simulate_no_orders cfg _ _ bars hord
    obtain ⟨m, hm⟩ := Nat.exists_eq_succ_of_ne_zero
      (fun h0 => hne (List.length_eq_zero.mp h0))
    have hEqR : (runCore stype ps capital cfg mwindow bars).equity =
        List.replicate (m + 1) capital := by
      rw [runCore_equity, hflat]
      show List.replicate bars.length cfg.initCash = _
      rw [hm, hinit]
    refine ⟨?_, ?_, ?_, ?_, ?_⟩
    · rw [runCore_totalReturn, hEqR, getLast?_replicate_succ]
      show pyMulC (pySubC (pyDivQ capital capital) 1) 100 = .num 0
      rw [pyDivQ_num capital capital (ne_of_gt hcap),
        div_self (ne_of_gt hcap)]
      show PyFloat.num ((1 - 1) * 100) = .num 0
      norm_num
    · rw [runCore_maxDrawdown, hEqR, vbtMaxDrawdown_ne_nil _ (by simp)]
      have hz := ddRatios_monotone_zero (List.replicate (m + 1) capital) 0
        (fun v hv => by rw [List.eq_of_mem_replicate hv]; exact hcap)
        (chain'_le_replicate _ _)
        (fun v hv => by
          rw [List.replicate_succ, List.head?_cons] at hv
          injection hv with hv2
          rw [← hv2]
          exact le_of_lt hcap)
      rw [hz]
      simp only [List.length_replicate]
      rw [foldl_min_replicate_zero]
      show PyFloat.num (0 * 100) = .num 0
      norm_num
    · rw [runCore_winRate, hflat]
      show pyMulC (pyNanToZero (winRateOf [])) 100 = .num 0
      norm_num [winRateOf, pyNanToZero, pyMulC]
    · rw [runCore_finalCapital, hEqR, getLast?_replicate_succ]
    · rw [runCore_initialCapital, hheadE]
      rfl

unseal Rat.mul Rat.add Rat.sub Rat.inv in
/-- C8 witness: the unknown-strategy run (no orders) has a finite sharpe
and zeroed totalReturn/winRate, with initialCapital kept at 10000. -/
theorem C8_metrics_finite_witness :
    resFOO.metrics.sharpeRatio.isNum = true ∧
      resFOO.metrics.winRate = .num 0 ∧
      resFOO.metrics.totalReturn = .num 0 ∧
      resFOO.metrics.initialCapital = .num 10000 := by
  have h := C8_metrics_finite "FOO" [] 10000 0 0 none barsA resFOO rfl
    (by norm_num) (by norm_num) (by norm_num) (by norm_num) (by norm_num)
    (by intro b hb; fin_cases hb <;> exact ⟨by decide, by decide⟩)
    (by decide)
  have h2 := h.2 (by decide)
  exact ⟨h.1.2.2.2.2.2, h2.2.2.1, h2.1, h2.2.2.2.2⟩

theorem colIdx_isOk (f : RawFrame) (k : String) :
    (colIdx f k).isOk = true ↔ k ∈ f.colNames := by
  unfold colIdx
  rcases h : f.colNames.findIdx? (· = k) with _ | i
  · rw [List.findIdx?_eq_none_iff] at h
    constructor
    · intro hx
      exact Bool.noConfusion hx
    · intro hk
      have hkk := h k hk
      simp at hkk
  · constructor
    · intro _
      by_contra hk
      have hnone : f.colNames.findIdx? (· = k) = none :=
        List.findIdx?_eq_none_iff.mpr
          (fun x hx => decide_eq_false (fun he => hk (he ▸ hx)))
      rw [hnone] at h
      cases h
    · intro _
      rfl

theorem colIdx_mem_of_ok (f : RawFrame) (k : String) (i : Nat)
    (h : colIdx f k = .ok i) : k ∈ f.colNames :=
  (colIdx_isOk f k).mp (by rw [h]; rfl)

theorem colIdx_not_mem_of_error (f : RawFrame) (k : String) (e : String)
    (h : colIdx f k = .error e) : k ∉ f.colNames := by
  intro hm
  have hx := (colIdx_isOk f k).mpr hm
  rw [h] at hx
  exact Bool.noConfusion hx

/-- C4 amended: construction fails (KeyError) exactly when one of the five
required columns is missing; non-ascending timestamps and emptiness are NOT
rejected — the rows are silently sorted by date (so any accepted frame
yields date-sorted bars) and an empty frame is accepted. -/
theorem C4_malformed_init_amended (f : RawFrame) :
    ((engineInit f).isOk = true ↔
      ("close" ∈ f.colNames ∧ "open" ∈ f.colNames ∧
        "high" ∈ f.colNames ∧ "low" ∈ f.colNames ∧
        "volume" ∈ f.colNames)) ∧
    (∀ bars, engineInit f = .ok bars →
      List.Sorted (· ≤ ·) (bars.map Bar.date)) := by
  constructor
  · unfold engineInit
    rcases h1 : colIdx f ("close") with e1 | c1
    · constructor
      · intro hx
        exact Bool.noConfusion hx
      · intro hmem
        exact absurd hmem.1 (colIdx_not_mem_of_error f ("close") e1 h1)
    rcases h2 : colIdx f ("open") with e2 | c2
    · constructor
      · intro hx
        exact Bool.noConfusion hx
      · intro hmem
        exact absurd hmem.2.1 (colIdx_not_mem_of_error f ("open") e2 h2)
    rcases h3 : colIdx f ("high") with e3 | c3
    · constructor
      · intro hx
        exact Bool.noConfusion hx
      · intro hmem
        exact absurd hmem.2.2.1 (colIdx_not_mem_of_error f ("high") e3 h3)
    rcases h4 : colIdx f ("low") with e4 | c4
    · constructor
      · intro hx
        exact Bool.noConfusion hx
      · intro hmem
        exact absurd hmem.2.2.2.1 (colIdx_not_mem_of_error f ("low") e4 h4)
    rcases h5 : colIdx f ("volume") with e5 | c5
    · constructor
      · intro hx
        exact Bool.noConfusion hx
      · intro hmem
        exact absurd hmem.2.2.2.2
          (colIdx_not_mem_of_error f ("volume") e5 h5)
    constructor
    · intro _
      exact ⟨colIdx_mem_of_ok f ("close") c1 h1,
        colIdx_mem_of_ok f ("open") c2 h2,
        colIdx_mem_of_ok f ("high") c3 h3,
        colIdx_mem_of_ok f ("low") c4 h4,
        colIdx_mem_of_ok f ("volume") c5 h5⟩
    · intro _
      rfl
  · intro bars hb
    unfold engineInit at hb
    rcases h1 : colIdx f ("close") with e1 | c1 <;> rw [h1] at hb
    · exact Except.noConfusion hb
    rcases h2 : colIdx f ("open") with e2 | c2 <;> rw [h2] at hb
    · exact Except.noConfusion hb
    rcases h3 : colIdx f ("high") with e3 | c3 <;> rw [h3] at hb
    · exact Except.noConfusion hb
    rcases h4 : colIdx f ("low") with e4 | c4 <;> rw [h4] at hb
    · exact Except.noConfusion hb
    rcases h5 : colIdx f ("volume") with e5 | c5 <;> rw [h5] at hb
    · exact Except.noConfusion hb
    have hb2 := Except.ok.inj hb
    rw [← hb2, List.map_map]
    have hsorted : List.Sorted (fun a b : RawRow => a.date ≤ b.date)
        (List.insertionSort (fun a b => a.date ≤ b.date) f.rows) := by
      haveI : IsTotal RawRow (fun a b => a.date ≤ b.date) :=
        ⟨fun a b => le_total a.date b.date⟩
      haveI : IsTrans RawRow (fun a b => a.date ≤ b.date) :=
        ⟨fun a b c hab hbc => le_trans hab hbc⟩
      exact List.sorted_insertionSort _ _
    exact List.pairwise_map.mpr hsorted

unseal Rat.mul Rat.add Rat.sub Rat.inv in
/-- C4 counterexample: `badFrame` has non-ascending timestamps, yet
construction succeeds (the rows are silently sorted) and the simulation
computes a result; an empty frame with the required columns is likewise
accepted and simulated. -/
theorem C4_malformed_init_counterexample :
    ¬ List.Chain' (fun a b : RawRow => a.date ≤ b.date) badFrame.rows ∧
      engineInit badFrame =
        .ok [⟨1, 2, 2, 2, 2, 0⟩, ⟨2, 1, 1, 1, 1, 0⟩] ∧
      (run_strategy "FOO" [] 100 0 0 none
        [⟨1, 2, 2, 2, 2, 0⟩, ⟨2, 1, 1, 1, 1, 0⟩]).isOk = true ∧
      engineInit ⟨["open", "high", "low", "close", "volume"], []⟩ =
        .ok [] ∧
      (run_strategy "FOO" [] 100 0 0 none []).isOk = true :=
  ⟨by
    intro hc
    rw [show badFrame.rows =
      [⟨2, [1, 1, 1, 1, 0]⟩, ⟨1, [2, 2, 2, 2, 0]⟩] from rfl] at hc
    exact absurd (List.chain'_cons.mp hc).1 (by decide),
   rfl, by decide, rfl, by decide⟩

/-- C4 amended witness: `badFrame` has all five columns, so construction
succeeds, and the bars it produces are date-sorted. -/
theorem C4_malformed_init_amended_witness :
    (engineInit badFrame).isOk = true ∧
      List.Sorted (· ≤ ·)
        (([⟨1, 2, 2, 2, 2, 0⟩, ⟨2, 1, 1, 1, 1, 0⟩] : List Bar).map
          Bar.date) :=
  ⟨(C4_malformed_init_amended badFrame).1.mpr (by decide),
   (C4_malformed_init_amended badFrame).2 _ rfl⟩

end QuantForge
